import Mathlib

/-!
# permhoot/rebuild: matching, timeout resolution, completion waiting, dispatch

A shallow embedding of `src/main.go`.  Go strings are Lean strings, pointers
that may be nil are `Option`s, `metav1.Time` instants and `time.Duration`
values are integers (durations in nanoseconds), a call to the cluster API is a
field of `Cluster` returning `Except`, and the goroutine a handler starts is a
`Task` value that `runTask` executes.
-/

set_option autoImplicit false
set_option linter.dupNamespace false

namespace Rebuild

/-! ## Go library functions used by the program -/

/-- Go `strings.Contains(s, substr)` on the character sequences: `substr`
occurs at some position of `s`. -/
def containsChars : List Char → List Char → Bool
  | [], substr => substr.isEmpty
  | c :: s, substr => substr.isPrefixOf (c :: s) || containsChars s substr

/-- Go `strings.Contains`. -/
def stringsContains (s substr : String) : Bool :=
  containsChars s.toList substr.toList

/-- Go `strings.TrimSuffix(s, suffix)`: `s` without the trailing `suffix`
when it ends in it, `s` itself otherwise. -/
def stringsTrimSuffix (s suffix : String) : String :=
  if suffix.toList.isSuffixOf s.toList then
    String.mk (s.toList.take (s.toList.length - suffix.toList.length))
  else s

/-! ## Resource types (the fields the program reads or writes) -/

/-- Shipwright `BuildSourceType` value `GitType`. -/
def GitType : String := "Git"

/-- Shipwright condition type `Succeeded`. -/
def Succeeded : String := "Succeeded"

/-- Kubernetes `corev1.ConditionTrue`. -/
def ConditionTrue : String := "True"

/-- Kubernetes `corev1.ConditionFalse`. -/
def ConditionFalse : String := "False"

/-- Kubernetes `corev1.ConditionUnknown`. -/
def ConditionUnknown : String := "Unknown"

/-- An instant of `metav1.Time`. -/
abbrev Time := Int

/-- A `time.Duration`, in nanoseconds. -/
abbrev Duration := Int

/-- Shipwright `Git` source. -/
structure Git where
  URL : String
  deriving DecidableEq, Repr

/-- Shipwright `Source`; `Type_` is the Go field `Type`. -/
structure Source where
  Type_ : String
  Git : Option Git
  deriving DecidableEq, Repr

/-- Shipwright `Image` (build output). -/
structure Image where
  Image : String
  deriving DecidableEq, Repr

/-- Shipwright `BuildSpec`. -/
structure BuildSpec where
  Source : Option Source
  Output : Image
  Timeout : Option Duration
  deriving DecidableEq, Repr

/-- Shipwright `Build` (a build definition). -/
structure Build where
  Name : String
  Namespace : String
  Spec : BuildSpec
  deriving DecidableEq, Repr

/-- Shipwright `ReferencedBuild`: a definition by name or an embedded spec. -/
structure ReferencedBuild where
  Spec : Option BuildSpec
  Name : Option String
  deriving DecidableEq, Repr

/-- Shipwright `BuildRunSpec`. -/
structure BuildRunSpec where
  Build : ReferencedBuild
  Timeout : Option Duration
  deriving DecidableEq, Repr

/-- Shipwright `Condition`; `Type_` is the Go field `Type`. -/
structure Condition where
  Type_ : String
  Status : String
  Message : String
  deriving DecidableEq, Repr

/-- Shipwright `BuildRunStatus`. -/
structure BuildRunStatus where
  Conditions : List Condition
  CompletionTime : Option Time
  deriving DecidableEq, Repr

/-- Shipwright `BuildRun` (a build execution). -/
structure BuildRun where
  Name : String
  GenerateName : String
  Namespace : String
  Spec : BuildRunSpec
  Status : BuildRunStatus
  deriving DecidableEq, Repr

/-- An error value. -/
inductive Error where
  /-- an error returned by a cluster API call -/
  | api (msg : String)
  /-- an error made of a text: `errors.New`, `fmt.Errorf` without `%w` -/
  | errorString (text : String)
  /-- Go `context.DeadlineExceeded` -/
  | deadlineExceeded
  /-- the error of `fmt.Errorf(pre ++ "%w", inner)` -/
  | wrap (pre : String) (inner : Error)
  deriving DecidableEq, Repr

/-- Knative `Service`: its name, namespace and annotations, and the
annotations of `Spec.Template`, a Go map that may be nil.  A Go
`map[string]string` is an association list read with `mapGet`. -/
structure Service where
  Name : String
  Namespace : String
  Annotations : List (String × String)
  TemplateAnnotations : Option (List (String × String))
  deriving DecidableEq, Repr

/-- The cluster seen by one request: the outcome of `inClusterSetup` and the
answers of the API calls the program makes.  `getBuildRun k` answers the
`k`-th fetch (counted from 0) of one `waitForBuildRunCompletion`;
`nowRFC3339` and `nowCompact` are `time.Now()` in the two layouts used. -/
structure Cluster where
  inClusterSetup : Except Error String
  listBuilds : String → Except Error (List Build)
  listBuildRuns : String → Except Error (List BuildRun)
  listServices : String → Except Error (List Service)
  getBuild : String → String → Except Error Build
  getBuildRun : Nat → String → String → Except Error BuildRun
  createBuildRun : String → BuildRun → Except Error BuildRun
  updateService : String → Service → Except Error Service
  nowRFC3339 : String
  nowCompact : String

/-! ## Constants of `main.go` -/

/-- Go `time.Second`, in nanoseconds. -/
def Second : Duration := 1000000000

/-- Go `time.Minute`. -/
def Minute : Duration := 60 * Second

/-- Constant `defaultBuildRunWaitTimeout`. -/
def defaultBuildRunWaitTimeout : Duration := 10 * Minute

/-- Constant `updateTimestampAnnotationKey`. -/
def updateTimestampAnnotationKey : String := "client.knative.dev/updateTimestamp"

/-- Constant `userImageAnnotation`. -/
def userImageAnnotation : String := "client.knative.dev/user-image"

/-- Go `http.StatusAccepted`. -/
def StatusAccepted : Nat := 202

/-- Go `http.StatusNotFound`. -/
def StatusNotFound : Nat := 404

/-- Go `http.StatusInternalServerError`. -/
def StatusInternalServerError : Nat := 500

/-! ## Resource Matcher -/

/-- The body of the loop of `findBuild` on one item: `true` when the item is
returned, `false` when the loop goes on. -/
def findBuildMatch (repo : String) (build : Build) : Bool :=
  match build.Spec.Source with
  | none => false
  | some source =>
    if source.Type_ ≠ GitType then false
    else
      match source.Git with
      | none => false
      | some git => stringsContains git.URL repo

/-- The loop of `findBuild` over `builds.Items`. -/
def findBuildLoop (repo : String) : List Build → Option Build
  | [] => none
  | build :: rest =>
    if findBuildMatch repo build then some build else findBuildLoop repo rest

/-- Go `findBuild`: the listing error, or the first matching definition. -/
def findBuild (c : Cluster) (namespace_ : String) (repo : String) :
    Except Error (Option Build) :=
  match c.listBuilds namespace_ with
  | .error err => .error err
  | .ok builds => .ok (findBuildLoop repo builds)

/-- Method `Before` of `*metav1.Time`: false when either pointer is nil. -/
def timeBefore : Option Time → Option Time → Bool
  | some t, some u => decide (t < u)
  | _, _ => false

/-- The body of the loop of `findBuildRun` on one item: the value of
`candidate` after the iteration. -/
def findBuildRunStep (repo : String) (candidate : Option BuildRun)
    (buildRun : BuildRun) : Option BuildRun :=
  match buildRun.Status.CompletionTime with
  | none => candidate
  | some _ =>
    match buildRun.Spec.Build.Spec with
    | none => candidate
    | some spec =>
      match spec.Source with
      | none => candidate
      | some source =>
        if source.Type_ ≠ GitType then candidate
        else
          match source.Git with
          | none => candidate
          | some git =>
            if stringsContains git.URL repo then
              match candidate with
              | none => some buildRun
              | some cand =>
                if timeBefore cand.Status.CompletionTime buildRun.Status.CompletionTime
                then some buildRun
                else some cand
            else candidate

/-- The loop of `findBuildRun` over `buildRuns.Items`. -/
def findBuildRunLoop (repo : String) : List BuildRun → Option BuildRun → Option BuildRun
  | [], candidate => candidate
  | buildRun :: rest, candidate =>
    findBuildRunLoop repo rest (findBuildRunStep repo candidate buildRun)

/-- Go `findBuildRun`: the listing error, or the candidate left by the loop. -/
def findBuildRun (c : Cluster) (namespace_ : String) (repo : String) :
    Except Error (Option BuildRun) :=
  match c.listBuildRuns namespace_ with
  | .error err => .error err
  | .ok buildRuns => .ok (findBuildRunLoop repo buildRuns none)

/-! ## Service Locator -/

/-- Reading a Go map: the value at `key` and whether it is present. -/
def mapGet (m : List (String × String)) (key : String) : Option String :=
  m.lookup key

/-- Writing a Go map: `m[key] = value`. -/
def mapSet : List (String × String) → String → String → List (String × String)
  | [], key, value => [(key, value)]
  | (k, v) :: m, key, value =>
    if k = key then (key, value) :: m else (k, v) :: mapSet m key value

/-- The loop of `findService` over `services.Items`. -/
def findServiceLoop (image : String) : List Service → Option Service
  | [] => none
  | service :: rest =>
    match mapGet service.Annotations userImageAnnotation with
    | some userImage =>
      if userImage = image then some service else findServiceLoop image rest
    | none => findServiceLoop image rest

/-- Go `findService`. -/
def findService (c : Cluster) (namespace_ : String) (image : String) :
    Except Error (Option Service) :=
  match c.listServices namespace_ with
  | .error err => .error err
  | .ok services => .ok (findServiceLoop image services)

/-! ## `fmt.Errorf` with a format and no operand

`conditionFunc` calls `fmt.Errorf(condition.Message)`: the message is the
format string and there is no operand.  The functions below follow
`doPrintf` of the Go package `fmt` for an empty operand list: no verb ever
finds its operand. -/

/-- Function `tooLarge` of package `fmt`. -/
def tooLarge (num : Nat) : Bool := decide (num > 1000000)

/-- Function `parsenum` of package `fmt`, on the characters from `start` to
`end`: whether a number was read and what is left to read; on a number that is
too large, no number and nothing left. -/
def parsenum : List Char → Nat → Bool → Bool × List Char
  | [], _, isnum => (isnum, [])
  | ch :: s, num, isnum =>
    if ch.isDigit then
      if tooLarge num then (false, [])
      else parsenum s (num * 10 + (ch.toNat - 48)) true
    else (isnum, ch :: s)

/-- Function `parseArgNumber` of package `fmt`, on the characters that follow
the opening bracket: whether `[n]` was read and what is left to read. -/
def parseArgNumber (s : List Char) : Bool × List Char :=
  if s.length < 2 then (false, s)
  else
    match s.dropWhile (fun ch => ch != ']') with
    | [] => (false, s)
    | _ :: after =>
      match parsenum (s.takeWhile (fun ch => ch != ']')) 0 false with
      | (ok, left) => (ok && left.isEmpty, after)

/-- The state of `doPrintf` while one verb is read: what is left of the
format, `afterIndex`, `goodArgNum`, and the text written so far. -/
structure VerbState where
  s : List Char
  afterIndex : Bool
  goodArgNum : Bool
  out : List Char

/-- Method `argNumber` of package `fmt` with no operand: an index `[n]` never
names an operand, so reading one clears `goodArgNum`. -/
def argNumber (st : VerbState) : VerbState :=
  match st.s with
  | '[' :: s =>
    match parseArgNumber s with
    | (ok, left) => { st with s := left, afterIndex := ok, goodArgNum := false }
  | _ => { st with afterIndex := false }

/-- The width of a verb in `doPrintf`: a star finds no operand and writes the
bad-width text, a number is read over. -/
def verbWidth (st : VerbState) : VerbState :=
  match st.s with
  | '*' :: s => { st with s := s, afterIndex := false, out := st.out ++ "%!(BADWIDTH)".toList }
  | s =>
    match parsenum s 0 false with
    | (widPresent, left) =>
      { st with s := left, goodArgNum := st.goodArgNum && !(st.afterIndex && widPresent) }

/-- The precision of a verb in `doPrintf`: a dot starts a precision only when
a character follows it (`i+1 < end`); a dot that ends the format is left to be
read as the verb. -/
def verbPrec (st : VerbState) : VerbState :=
  match st.s with
  | '.' :: ch :: s =>
    let st1 := argNumber { st with s := ch :: s, goodArgNum := st.goodArgNum && !st.afterIndex }
    match st1.s with
    | '*' :: s1 =>
      { st1 with s := s1, afterIndex := false, out := st1.out ++ "%!(BADPREC)".toList }
    | s1 => { st1 with s := (parsenum s1 0 false).2 }
  | _ => st

/-- One verb of `doPrintf` with no operand, on the characters that follow the
percent sign: the text written and, unless the format ended, what follows
the verb. -/
def doVerb (s : List Char) : List Char × Option (List Char) :=
  let flags := s.dropWhile (fun ch => ch == '#' || ch == '0' || ch == '+' || ch == '-' || ch == ' ')
  let st1 := argNumber { s := flags, afterIndex := false, goodArgNum := true, out := [] }
  let st2 := verbPrec (verbWidth st1)
  let st3 := if st2.afterIndex then st2 else argNumber st2
  match st3.s with
  | [] => (st3.out ++ "%!(NOVERB)".toList, none)
  | verb :: left =>
    if verb = '%' then (st3.out ++ ['%'], some left)
    else if !st3.goodArgNum then
      (st3.out ++ "%!".toList ++ [verb] ++ "(BADINDEX)".toList, some left)
    else (st3.out ++ "%!".toList ++ [verb] ++ "(MISSING)".toList, some left)

/-- The loop of `doPrintf` with no operand; every round reads at least the
percent sign, so `fuel` above the length of the format is never used up. -/
def doPrintfLoop : Nat → List Char → List Char
  | 0, _ => []
  | fuel + 1, s =>
    let text := s.takeWhile (fun ch => ch != '%')
    match s.dropWhile (fun ch => ch != '%') with
    | [] => text
    | _ :: afterPercent =>
      match doVerb afterPercent with
      | (out, none) => text ++ out
      | (out, some left) => text ++ out ++ doPrintfLoop fuel left

/-- Go `fmt.Sprintf(format)` with no operand. -/
def Sprintf0 (format : String) : String :=
  String.mk (doPrintfLoop (format.toList.length + 1) format.toList)

/-- Go `fmt.Errorf(format)` with no operand: an error whose text is the
formatted string. -/
def Errorf0 (format : String) : Error :=
  Error.errorString (Sprintf0 format)

/-- Method `Error()` of an error value: its text. -/
def Error.text : Error → String
  | .api msg => msg
  | .errorString text => text
  | .deadlineExceeded => "context deadline exceeded"
  | .wrap pre inner => pre ++ inner.text

/-! ## Timeout Resolver -/

/-- Go `lookUpTimeout`. -/
def lookUpTimeout (c : Cluster) (buildRun : BuildRun) : Duration :=
  match buildRun.Spec.Timeout with
  | some timeout => timeout
  | none =>
    let parent : Option Duration :=
      match buildRun.Spec.Build.Name with
      | none => none
      | some name =>
        match c.getBuild buildRun.Namespace name with
        | .ok build => build.Spec.Timeout
        | .error _ => none
    match parent with
    | some timeout => timeout
    | none =>
      let inline : Option Duration :=
        match buildRun.Spec.Build.Spec with
        | none => none
        | some spec => spec.Timeout
      match inline with
      | some timeout => timeout
      | none => defaultBuildRunWaitTimeout

/-! ## Completion Waiter -/

/-- Modelled from the spec: method `GetCondition` of the Shipwright type
`BuildRunStatus` is not in the repository; it is "the execution's
Succeeded-kind condition", the first condition of the given type, absent when
there is none. -/
def GetCondition (status : BuildRunStatus) (t : String) : Option Condition :=
  status.Conditions.find? (fun cond => cond.Type_ == t)

/-- What one call of `conditionFunc` leaves: the variable `buildRun` the
closure shares with `waitForBuildRunCompletion`, and the two results. -/
structure PollStep where
  buildRun : BuildRun
  done : Bool
  err : Option Error
  deriving DecidableEq, Repr

/-- The closure `conditionFunc` of `waitForBuildRunCompletion`, at the `k`-th
fetch.  After a failed fetch the variable `buildRun` is not read again (the
waiter returns nil), so it is left as it was. -/
def conditionFunc (c : Cluster) (k : Nat) (buildRun : BuildRun) : PollStep :=
  match c.getBuildRun k buildRun.Namespace buildRun.Name with
  | .error err => { buildRun := buildRun, done := false, err := some err }
  | .ok fetched =>
    match GetCondition fetched.Status Succeeded with
    | none => { buildRun := fetched, done := false, err := none }
    | some condition =>
      if condition.Status = ConditionTrue then
        if fetched.Status.CompletionTime ≠ none then
          { buildRun := fetched, done := true, err := none }
        else { buildRun := fetched, done := false, err := none }
      else if condition.Status = ConditionFalse then
        { buildRun := fetched, done := false, err := some (Errorf0 condition.Message) }
      else { buildRun := fetched, done := false, err := none }

/-- The interval of the poll, `10*time.Second`. -/
def pollInterval : Duration := 10 * Second

/-- What the poll leaves: the variable `buildRun`, the error returned, the
number of calls of the condition, and the time elapsed on the clock of the
model. -/
structure PollResult where
  buildRun : BuildRun
  err : Option Error
  polls : Nat
  elapsed : Duration
  deriving DecidableEq, Repr

/-- Modelled from the spec: the number of ticks of the poll timer that come
strictly before the deadline, on a clock where the `k`-th tick is at
`k * interval` after the start ("every fixed interval", "the overall elapsed
time exceeds the resolved timeout"). -/
def ticksBeforeDeadline (interval timeout : Duration) : Nat :=
  if timeout ≤ 0 then 0 else ((timeout - 1) / interval).toNat

/-- Modelled from the spec: the loop of `wait.PollUntilContextTimeout` with
`immediate` set, which is library code outside the repository.  The condition
is called at once and then at every tick before the deadline (`ticks` of them
are left); the loop returns the error of the condition, nil when the condition
is done, and `context.DeadlineExceeded` when the deadline comes first.  Call
`k` is made at `k * interval`; a fetch takes no time. -/
def pollLoop (interval timeout : Duration) (condition : Nat → BuildRun → PollStep) :
    Nat → Nat → BuildRun → PollResult
  | 0, k, buildRun =>
    let step := condition k buildRun
    if step.err.isSome || step.done then
      { buildRun := step.buildRun, err := step.err, polls := k + 1, elapsed := k * interval }
    else
      { buildRun := step.buildRun, err := some Error.deadlineExceeded, polls := k + 1,
        elapsed := max (k * interval) timeout }
  | ticks + 1, k, buildRun =>
    let step := condition k buildRun
    if step.err.isSome || step.done then
      { buildRun := step.buildRun, err := step.err, polls := k + 1, elapsed := k * interval }
    else pollLoop interval timeout condition ticks (k + 1) step.buildRun

/-- Modelled from the spec: `wait.PollUntilContextTimeout(ctx, interval,
timeout, true, condition)`. -/
def PollUntilContextTimeout (interval timeout : Duration)
    (condition : Nat → BuildRun → PollStep) (buildRun : BuildRun) : PollResult :=
  pollLoop interval timeout condition (ticksBeforeDeadline interval timeout) 0 buildRun

/-- What `waitForBuildRunCompletion` returns, with the number of fetches it
made and the time elapsed on the clock of the model. -/
structure WaitResult where
  buildRun : Option BuildRun
  err : Option Error
  polls : Nat
  elapsed : Duration
  deriving DecidableEq, Repr

/-- Go `waitForBuildRunCompletion`. -/
def waitForBuildRunCompletion (c : Cluster) (buildRun : BuildRun) : WaitResult :=
  let timeout := lookUpTimeout c buildRun
  let r := PollUntilContextTimeout pollInterval timeout (conditionFunc c) buildRun
  match r.err with
  | some err =>
    { buildRun := none,
      err := some (Error.wrap "waiting for build-run to finish failed: " err),
      polls := r.polls, elapsed := r.elapsed }
  | none => { buildRun := some r.buildRun, err := none, polls := r.polls, elapsed := r.elapsed }

/-! ## Revision Nudger -/

/-- Go `nudgeService`: the service handed to `Update`. -/
def nudgeService (c : Cluster) (service : Service) : Service :=
  let annotations : List (String × String) :=
    match service.TemplateAnnotations with
    | none => []
    | some m => m
  { service with
    TemplateAnnotations := some (mapSet annotations updateTimestampAnnotationKey c.nowRFC3339) }

/-! ## Rebuild Orchestrator -/

/-- The goroutine started by `handleBuild` or by `handleBuildRun`, with the
variables it captures. -/
inductive Task where
  | ofBuild (build : Build) (service : Service)
  | ofBuildRun (buildRun : BuildRun) (service : Service)
  deriving DecidableEq, Repr

/-- What a handler does before it returns: the status code, the amount added
to the wait group, and the goroutine started. -/
structure Response where
  status : Nat
  wgAdd : Nat
  task : Option Task
  deriving DecidableEq, Repr

/-- Go `handleBuild`, up to its return. -/
def handleBuild (c : Cluster) (build : Build) : Response :=
  match findService c build.Namespace build.Spec.Output.Image with
  | .error _ => { status := StatusInternalServerError, wgAdd := 0, task := none }
  | .ok none => { status := StatusNotFound, wgAdd := 0, task := none }
  | .ok (some service) =>
    { status := StatusAccepted, wgAdd := 1, task := some (Task.ofBuild build service) }

/-- Go `handleBuildRun`, up to its return; `none` is the nil-pointer panic of
reading `buildRun.Spec.Build.Spec.Output.Image` without an embedded spec. -/
def handleBuildRun (c : Cluster) (buildRun : BuildRun) : Option Response :=
  match buildRun.Spec.Build.Spec with
  | none => none
  | some spec =>
    match findService c buildRun.Namespace spec.Output.Image with
    | .error _ => some { status := StatusInternalServerError, wgAdd := 0, task := none }
    | .ok none => some { status := StatusNotFound, wgAdd := 0, task := none }
    | .ok (some service) =>
      some { status := StatusAccepted, wgAdd := 1, task := some (Task.ofBuildRun buildRun service) }

/-- Go `handleRepo`, up to its return; `none` is a panic. -/
def handleRepo (c : Cluster) (repo : String) : Option Response :=
  match c.inClusterSetup with
  | .error _ => some { status := StatusInternalServerError, wgAdd := 0, task := none }
  | .ok namespace_ =>
    match findBuild c namespace_ repo with
    | .error _ => some { status := StatusInternalServerError, wgAdd := 0, task := none }
    | .ok (some build) => some (handleBuild c build)
    | .ok none =>
      match findBuildRun c namespace_ repo with
      | .error _ => some { status := StatusInternalServerError, wgAdd := 0, task := none }
      | .ok (some buildRun) => handleBuildRun c buildRun
      | .ok none => some { status := StatusNotFound, wgAdd := 0, task := none }

/-- What a goroutine does: the build execution handed to `Create`, the one
the cluster returned when the creation succeeded, the service handed to
`Update` when the service was nudged, and the amount taken from the wait
group. -/
structure TaskEffects where
  submitted : BuildRun
  created : Option BuildRun
  updated : Option Service
  wgDone : Nat
  deriving DecidableEq, Repr

/-- The end of both goroutines once the new execution is made: create it,
wait for it, nudge the service. -/
def createWaitNudge (c : Cluster) (namespace_ : String) (newBuildRun : BuildRun)
    (service : Service) : TaskEffects :=
  match c.createBuildRun namespace_ newBuildRun with
  | .error _ => { submitted := newBuildRun, created := none, updated := none, wgDone := 1 }
  | .ok created =>
    match (waitForBuildRunCompletion c created).err with
    | some _ =>
      { submitted := newBuildRun, created := some created, updated := none, wgDone := 1 }
    | none =>
      { submitted := newBuildRun, created := some created,
        updated := some (nudgeService c service), wgDone := 1 }

/-- The bodies of the goroutines of `handleBuild` and `handleBuildRun`. -/
def runTask (c : Cluster) : Task → TaskEffects
  | .ofBuild build service =>
    createWaitNudge c build.Namespace
      { Name := "", GenerateName := "rebuild-" ++ build.Name ++ "-",
        Namespace := build.Namespace,
        Spec := { Build := { Spec := none, Name := some build.Name }, Timeout := none },
        Status := { Conditions := [], CompletionTime := none } }
      service
  | .ofBuildRun buildRun service =>
    createWaitNudge c buildRun.Namespace
      { Name := "rebuild-build-run-" ++ c.nowCompact, GenerateName := "",
        Namespace := buildRun.Namespace,
        Spec := buildRun.Spec,
        Status := { Conditions := [], CompletionTime := none } }
      service

/-- The service a goroutine captures. -/
def Task.service : Task → Service
  | .ofBuild _ service => service
  | .ofBuildRun _ service => service

/-! ## The listing calls of a request -/

/-- A listing call of the cluster API. -/
inductive ApiCall where
  | listBuilds (namespace_ : String)
  | listBuildRuns (namespace_ : String)
  | listServices (namespace_ : String)
  deriving DecidableEq, Repr

/-- The listing calls `handleBuild` makes, in order: the one of
`findService`. -/
def handleBuildCalls (build : Build) : List ApiCall :=
  [ApiCall.listServices build.Namespace]

/-- The listing calls `handleBuildRun` makes, in order: the one of
`findService`, none when reading the embedded spec panics. -/
def handleBuildRunCalls (buildRun : BuildRun) : List ApiCall :=
  match buildRun.Spec.Build.Spec with
  | none => []
  | some _ => [ApiCall.listServices buildRun.Namespace]

/-- The listing calls `handleRepo` makes, in order: the one of `findBuild`,
then the one of `findBuildRun` when no definition was found, then the one of
the handler it calls. -/
def handleRepoCalls (c : Cluster) (repo : String) : List ApiCall :=
  match c.inClusterSetup with
  | .error _ => []
  | .ok namespace_ =>
    ApiCall.listBuilds namespace_ ::
      match findBuild c namespace_ repo with
      | .error _ => []
      | .ok (some build) => handleBuildCalls build
      | .ok none =>
        ApiCall.listBuildRuns namespace_ ::
          match findBuildRun c namespace_ repo with
          | .error _ => []
          | .ok (some buildRun) => handleBuildRunCalls buildRun
          | .ok none => []

/-! ## The wait group -/

/-- The process between two events: the counter of the wait group `wg` of
`main`, and the goroutines that were started and have not returned. -/
structure Process where
  counter : Int
  running : List Task

/-- What happens to the process: a request is handled up to the return of
`handleRepo`, or the `i`-th running goroutine runs to its end; each event
sees the cluster of its time. -/
inductive Event where
  | request (c : Cluster) (repo : String)
  | finish (c : Cluster) (i : Nat)

/-- One event: a handler adds `wgAdd` to the counter and starts its
goroutine, a goroutine that returns takes `wgDone` from the counter. -/
def Process.step (p : Process) : Event → Process
  | .request c repo =>
    match handleRepo c repo with
    | none => p
    | some resp =>
      { counter := p.counter + resp.wgAdd, running := p.running ++ resp.task.toList }
  | .finish c i =>
    match p.running[i]? with
    | none => p
    | some task =>
      { counter := p.counter - (runTask c task).wgDone, running := p.running.eraseIdx i }

/-- The process at the start of `main`. -/
def Process.start : Process :=
  { counter := 0, running := [] }

/-- The process after the events, from the start of `main`. -/
def Process.after (events : List Event) : Process :=
  events.foldl Process.step Process.start

/-! ## The words of the specification -/

/-- The string `sub` occurs in the string `s`. -/
def IsSubstring (sub s : String) : Prop :=
  ∃ pre post : List Char, s.toList = pre ++ sub.toList ++ post

/-- A definition with a source block of type git and a git block whose URL
contains the repository reference. -/
def BuildReferences (repo : String) (d : Build) : Prop :=
  ∃ source git, d.Spec.Source = some source ∧ source.Type_ = GitType ∧
    source.Git = some git ∧ IsSubstring repo git.URL

/-- An execution with an embedded spec whose source block is of type git,
with a git block whose URL contains the repository reference. -/
def RunReferences (repo : String) (e : BuildRun) : Prop :=
  ∃ spec source git, e.Spec.Build.Spec = some spec ∧ spec.Source = some source ∧
    source.Type_ = GitType ∧ source.Git = some git ∧ IsSubstring repo git.URL

/-- An execution completed at the instant `t`. -/
def CompletedAt (e : BuildRun) (t : Time) : Prop :=
  e.Status.CompletionTime = some t

/-- The status of the Succeeded condition of the execution, none when the
condition is absent. -/
def SucceededStatus (e : BuildRun) : Option String :=
  (GetCondition e.Status Succeeded).map (fun cond => cond.Status)

/-- The Succeeded condition of the execution has status true and the
completion instant is set. -/
def IsSucceeded (e : BuildRun) : Prop :=
  SucceededStatus e = some ConditionTrue ∧ e.Status.CompletionTime ≠ none

/-- The Succeeded condition of the execution has status false. -/
def IsFailed (e : BuildRun) : Prop :=
  SucceededStatus e = some ConditionFalse

instance (e : BuildRun) : Decidable (IsSucceeded e) := by
  unfold IsSucceeded
  infer_instance

instance (e : BuildRun) : Decidable (IsFailed e) := by
  unfold IsFailed
  infer_instance

/-- The parent definition gives no timeout: the execution names no
definition, or the definition cannot be fetched, or it has no timeout. -/
def ParentTimeoutAbsent (c : Cluster) (e : BuildRun) : Prop :=
  ∀ name, e.Spec.Build.Name = some name →
    ∀ build, c.getBuild e.Namespace name = .ok build → build.Spec.Timeout = none

/-- The service carries the image-identity annotation with this value. -/
def TaggedWith (image : String) (s : Service) : Prop :=
  mapGet s.Annotations userImageAnnotation = some image

/-- The cluster serves the statuses `sts`, in this order, to a waiter whose
variable `buildRun` holds `cur` and whose next fetch is the `k`-th. -/
def Serves (c : Cluster) : BuildRun → Nat → List BuildRun → Prop
  | _, _, [] => True
  | cur, k, st :: rest =>
    c.getBuildRun k cur.Namespace cur.Name = .ok st ∧ Serves c st (k + 1) rest

/-- The listing of the namespace succeeds and holds a service that carries
the image-identity annotation with this image. -/
def ServiceExists (c : Cluster) (namespace_ image : String) : Prop :=
  ∃ services, c.listServices namespace_ = .ok services ∧
    ∃ s ∈ services, TaggedWith image s

/-- The definition `d` is the first one of the listing `D` that references
the repository. -/
def FirstReferencing (repo : String) (D : List Build) (d : Build) : Prop :=
  ∃ pre post, D = pre ++ d :: post ∧ BuildReferences repo d ∧
    ∀ x ∈ pre, ¬ BuildReferences repo x

/-- The execution `r` is, among the completed executions of the listing `E`
that reference the repository, the first listed of those with the latest
completion instant. -/
def LatestReferencing (repo : String) (E : List BuildRun) (r : BuildRun) : Prop :=
  ∃ pre post t, E = pre ++ r :: post ∧ CompletedAt r t ∧ RunReferences repo r ∧
    (∀ x ∈ pre, RunReferences repo x → ∀ tx, CompletedAt x tx → tx < t) ∧
    (∀ x ∈ post, RunReferences repo x → ∀ tx, CompletedAt x tx → tx ≤ t)

/-- The request is accepted, on the listings `D` of definitions and `E` of
executions: the first listed definition that references the repository has a
service tagged with its output image; or no listed definition references the
repository, and the latest-completed execution that references it has a
service tagged with the output image of its embedded spec. -/
def Accepted (c : Cluster) (repo : String) (D : List Build) (E : List BuildRun) : Prop :=
  (∃ d, FirstReferencing repo D d ∧ ServiceExists c d.Namespace d.Spec.Output.Image) ∨
  ((∀ d ∈ D, ¬ BuildReferences repo d) ∧
    ∃ r spec, LatestReferencing repo E r ∧ r.Spec.Build.Spec = some spec ∧
      ServiceExists c r.Namespace spec.Output.Image)

/-- The condition for 202 as the claim words it, on the listings `D` and `E`:
some listed definition references the repository and a service tagged with
the output image of that definition exists; or no listed definition
references it, some completed listed execution does, and a service tagged with
the output image of its embedded spec exists. -/
def AcceptedAsWritten (c : Cluster) (repo : String) (D : List Build) (E : List BuildRun) :
    Prop :=
  (∃ d ∈ D, BuildReferences repo d ∧ ServiceExists c d.Namespace d.Spec.Output.Image) ∨
  ((∀ d ∈ D, ¬ BuildReferences repo d) ∧
    ∃ r ∈ E, (∃ t, CompletedAt r t) ∧ RunReferences repo r ∧
      ∃ spec, r.Spec.Build.Spec = some spec ∧
        ServiceExists c r.Namespace spec.Output.Image)

/-! ## Concrete inputs -/

/-- A cluster with nothing in it: every listing is empty, nothing can be
fetched, created or updated. -/
def emptyCluster : Cluster where
  inClusterSetup := .ok "ns"
  listBuilds := fun _ => .ok []
  listBuildRuns := fun _ => .ok []
  listServices := fun _ => .ok []
  getBuild := fun _ _ => .error (Error.api "not found")
  getBuildRun := fun _ _ _ => .error (Error.api "not found")
  createBuildRun := fun _ _ => .error (Error.api "forbidden")
  updateService := fun _ _ => .error (Error.api "forbidden")
  nowRFC3339 := "2024-01-01T00:00:00Z"
  nowCompact := "20240101000000"

/-- A spec with a git source. -/
def gitSpec (url image : String) : BuildSpec :=
  { Source := some { Type_ := GitType, Git := some { URL := url } },
    Output := { Image := image }, Timeout := none }

/-- A definition with a git source. -/
def gitBuild (name url image : String) : Build :=
  { Name := name, Namespace := "ns", Spec := gitSpec url image }

/-- A cluster whose only definitions are the given ones. -/
def clusterOfBuilds (builds : List Build) : Cluster :=
  { emptyCluster with listBuilds := fun _ => .ok builds }

/-- An execution that embeds a spec with a git source, completed or not. -/
def gitRun (name url image : String) (completion : Option Time) : BuildRun :=
  { Name := name, GenerateName := "", Namespace := "ns",
    Spec := { Build := { Spec := some (gitSpec url image), Name := none }, Timeout := none },
    Status := { Conditions := [], CompletionTime := completion } }

/-- A cluster whose only executions are the given ones. -/
def clusterOfRuns (runs : List BuildRun) : Cluster :=
  { emptyCluster with listBuildRuns := fun _ => .ok runs }

/-- A spec without a source, with the given timeout. -/
def plainSpec (timeout : Option Duration) : BuildSpec :=
  { Source := none, Output := { Image := "img" }, Timeout := timeout }

/-- An execution with the given timeout, parent name and inline timeout. -/
def timeoutRun (t1 : Option Duration) (parent : Option String) (t3 : Option Duration) :
    BuildRun :=
  { Name := "run", GenerateName := "", Namespace := "ns",
    Spec := { Build := { Spec := some (plainSpec t3), Name := parent }, Timeout := t1 },
    Status := { Conditions := [], CompletionTime := none } }

/-- A cluster where every definition can be fetched and has the given
timeout. -/
def clusterOfParent (t2 : Option Duration) : Cluster :=
  { emptyCluster with
    getBuild := fun ns name => .ok { Name := name, Namespace := ns, Spec := plainSpec t2 } }

/-- An execution named `run` with the given conditions and completion
instant. -/
def statusRun (conds : List Condition) (completion : Option Time) : BuildRun :=
  { Name := "run", GenerateName := "", Namespace := "ns",
    Spec := { Build := { Spec := none, Name := some "app" }, Timeout := none },
    Status := { Conditions := conds, CompletionTime := completion } }

/-- A cluster that answers the `k`-th fetch of an execution with the `k`-th
of the given statuses, and with an error once they are used up. -/
def clusterOfStatuses (sts : List BuildRun) : Cluster :=
  { emptyCluster with
    getBuildRun := fun k _ _ =>
      match sts[k]? with
      | some st => .ok st
      | none => .error (Error.api "not found") }

/-- A created execution named `run` with the given timeout. -/
def createdRun (timeout : Option Duration) : BuildRun :=
  { Name := "run", GenerateName := "", Namespace := "ns",
    Spec := { Build := { Spec := none, Name := none }, Timeout := timeout },
    Status := { Conditions := [], CompletionTime := none } }

/-- A fetched execution whose Succeeded condition has status unknown. -/
def unknownRun : BuildRun :=
  statusRun [⟨Succeeded, ConditionUnknown, "running"⟩] none

/-- A fetched execution whose Succeeded condition has status true, completed
at the instant 7. -/
def doneRun : BuildRun :=
  statusRun [⟨Succeeded, ConditionTrue, "done"⟩] (some 7)

/-- A service named `app` tagged with the given image. -/
def taggedService (image : String) : Service :=
  { Name := "app", Namespace := "ns",
    Annotations := [("client.knative.dev/user-image", image)],
    TemplateAnnotations := none }

/-- A cluster with the given definitions, executions and services. -/
def clusterOf (builds : List Build) (runs : List BuildRun) (services : List Service) :
    Cluster :=
  { emptyCluster with
    listBuilds := fun _ => .ok builds
    listBuildRuns := fun _ => .ok runs
    listServices := fun _ => .ok services }

/-- A cluster that creates every execution as submitted and answers the
fetches with the given statuses. -/
def creatingCluster (sts : List BuildRun) : Cluster :=
  { clusterOfStatuses sts with createBuildRun := fun _ buildRun => .ok buildRun }

/-- An execution that references the definition `app` by name only,
completed at the instant 9. -/
def namedRun : BuildRun :=
  { Name := "by-name", GenerateName := "", Namespace := "ns",
    Spec := { Build := { Spec := none, Name := some "app" }, Timeout := none },
    Status := { Conditions := [], CompletionTime := some 9 } }

/-- A cluster whose listing of definitions fails. -/
def brokenCluster : Cluster :=
  { emptyCluster with listBuilds := fun _ => .error (Error.api "unavailable") }

/-! ## Theorems: strings -/

theorem containsChars_iff (s sub : List Char) :
    containsChars s sub = true ↔ ∃ pre post : List Char, s = pre ++ sub ++ post := by
  induction s with
  | nil =>
    simp only [containsChars, List.isEmpty_iff]
    constructor
    · intro h
      exact ⟨[], [], by simp [h]⟩
    · rintro ⟨pre, post, h⟩
      have h1 := congrArg List.length h
      simp at h1
      exact List.length_eq_zero.mp (by omega)
  | cons c s ih =>
    simp only [containsChars, Bool.or_eq_true, ih]
    constructor
    · rintro (h | ⟨pre, post, h⟩)
      · obtain ⟨t, ht⟩ := ( List.isPrefixOf_iff_prefix).mp h
        exact ⟨[], t, by simp [ht]⟩
      · exact ⟨c :: pre, post, by simp [h]⟩
    · rintro ⟨pre, post, h⟩
      cases pre with
      | nil =>
        left
        exact ( List.isPrefixOf_iff_prefix).mpr ⟨post, by simpa using h.symm⟩
      | cons a pre =>
        right
        simp only [List.cons_append, List.cons.injEq] at h
        exact ⟨pre, post, h.2⟩

theorem stringsContains_iff (s sub : String) :
    stringsContains s sub = true ↔ IsSubstring sub s := by
  simp only [stringsContains, containsChars_iff, IsSubstring]

theorem isSubstring_empty (s : String) : IsSubstring "" s :=
  ⟨[], s.toList, by simp⟩

theorem isSubstring_ne_empty {sub s : String} (h : IsSubstring sub s) (hsub : sub ≠ "") :
    s ≠ "" := by
  rintro rfl
  obtain ⟨pre, post, h⟩ := h
  have h1 := congrArg List.length h
  simp only [String.toList, List.length_append, List.length_nil] at h1
  apply hsub
  have h2 : sub.data = [] := List.length_eq_zero.mp (by omega)
  exact String.ext h2

/-! ## Theorems: the Resource Matcher on definitions -/

theorem findBuildMatch_iff (repo : String) (d : Build) :
    findBuildMatch repo d = true ↔ BuildReferences repo d := by
  unfold findBuildMatch BuildReferences
  cases hs : d.Spec.Source with
  | none => simp
  | some source =>
    by_cases ht : source.Type_ = GitType
    · cases hg : source.Git with
      | none => simp [ht, hg]
      | some git => simp [ht, hg, stringsContains_iff]
    · simp [ht]

theorem findBuildLoop_some_iff (repo : String) (D : List Build) :
    (∃ b, findBuildLoop repo D = some b) ↔ ∃ d ∈ D, findBuildMatch repo d = true := by
  induction D with
  | nil => simp [findBuildLoop]
  | cons d D ih =>
    by_cases hd : findBuildMatch repo d = true
    · simp [findBuildLoop, hd]
    · simp [findBuildLoop, hd, ih]

theorem findBuildLoop_mem {repo : String} {D : List Build} {b : Build}
    (h : findBuildLoop repo D = some b) : b ∈ D ∧ findBuildMatch repo b = true := by
  induction D with
  | nil => simp [findBuildLoop] at h
  | cons d D ih =>
    by_cases hd : findBuildMatch repo d = true
    · simp [findBuildLoop, hd] at h
      subst h
      simp [hd]
    · simp [findBuildLoop, hd] at h
      have := ih h
      simp [this]

/-- C1, as amended: with the listing `D`, `findBuild` called with the clone
URL stripped of a trailing `.git` returns a definition if and only if some
definition of `D` has a source block of type git with a git block whose URL
contains the stripped reference; when the stripped reference is not empty,
such a URL is not empty either, and the claim holds as it is written. -/
theorem findBuild_some_iff (c : Cluster) (namespace_ cloneURL : String) (D : List Build)
    (hD : c.listBuilds namespace_ = .ok D) :
    ((∃ b, findBuild c namespace_ (stringsTrimSuffix cloneURL ".git") = .ok (some b)) ↔
      ∃ d ∈ D, BuildReferences (stringsTrimSuffix cloneURL ".git") d) ∧
    (stringsTrimSuffix cloneURL ".git" ≠ "" →
      ((∃ b, findBuild c namespace_ (stringsTrimSuffix cloneURL ".git") = .ok (some b)) ↔
        ∃ d ∈ D, ∃ source git, d.Spec.Source = some source ∧ source.Type_ = GitType ∧
          source.Git = some git ∧ git.URL ≠ "" ∧
          IsSubstring (stringsTrimSuffix cloneURL ".git") git.URL)) := by
  have key : (∃ b, findBuild c namespace_ (stringsTrimSuffix cloneURL ".git") = .ok (some b)) ↔
      ∃ d ∈ D, BuildReferences (stringsTrimSuffix cloneURL ".git") d := by
    simp only [findBuild, hD, Except.ok.injEq]
    rw [findBuildLoop_some_iff]
    simp only [findBuildMatch_iff]
  refine ⟨key, fun hne => ?_⟩
  rw [key]
  constructor
  · rintro ⟨d, hd, source, git, h1, h2, h3, h4⟩
    exact ⟨d, hd, source, git, h1, h2, h3, isSubstring_ne_empty h4 hne, h4⟩
  · rintro ⟨d, hd, source, git, h1, h2, h3, _, h4⟩
    exact ⟨d, hd, source, git, h1, h2, h3, h4⟩

/-- Witness of C1: the clone URL of scenario 1 against the definition of
scenario 1. -/
theorem findBuild_some_iff_witness :
    ((∃ b, findBuild (clusterOfBuilds [gitBuild "app" "https://example.com/org/app" "registry/app:latest"])
        "ns" (stringsTrimSuffix "https://example.com/org/app.git" ".git") = .ok (some b)) ↔
      ∃ d ∈ [gitBuild "app" "https://example.com/org/app" "registry/app:latest"],
        BuildReferences (stringsTrimSuffix "https://example.com/org/app.git" ".git") d) :=
  (findBuild_some_iff (clusterOfBuilds [gitBuild "app" "https://example.com/org/app" "registry/app:latest"])
    "ns" "https://example.com/org/app.git"
    [gitBuild "app" "https://example.com/org/app" "registry/app:latest"] rfl).1

/-- Counterexample to C1 as written: for the clone URL `.git` the stripped
reference is empty, and `findBuild` returns a definition whose git URL is
empty, while no definition has a non-empty git URL. -/
theorem findBuild_empty_url_counterexample :
    ¬ ((∃ b, findBuild (clusterOfBuilds [gitBuild "app" "" "registry/app:latest"])
          "ns" (stringsTrimSuffix ".git" ".git") = .ok (some b)) ↔
        ∃ d ∈ [gitBuild "app" "" "registry/app:latest"], ∃ source git,
          d.Spec.Source = some source ∧ source.Type_ = GitType ∧
          source.Git = some git ∧ git.URL ≠ "" ∧
          IsSubstring (stringsTrimSuffix ".git" ".git") git.URL) := by
  intro h
  have hfound : ∃ b, findBuild (clusterOfBuilds [gitBuild "app" "" "registry/app:latest"])
      "ns" (stringsTrimSuffix ".git" ".git") = .ok (some b) :=
    ⟨gitBuild "app" "" "registry/app:latest", rfl⟩
  obtain ⟨d, hd, source, git, h1, _, h3, h4, _⟩ := h.mp hfound
  simp only [List.mem_singleton] at hd
  subst hd
  simp only [gitBuild, gitSpec, Option.some.injEq] at h1
  subst h1
  simp only [Option.some.injEq] at h3
  subst h3
  exact h4 rfl

/-! ## Theorems: the Resource Matcher on executions -/

theorem findBuildRunStep_skip (repo : String) (cand : Option BuildRun) (e : BuildRun)
    (h : ¬ ((∃ t, CompletedAt e t) ∧ RunReferences repo e)) :
    findBuildRunStep repo cand e = cand := by
  unfold findBuildRunStep
  unfold CompletedAt RunReferences at h
  cases hc : e.Status.CompletionTime with
  | none => rfl
  | some t =>
    cases hs : e.Spec.Build.Spec with
    | none => rfl
    | some spec =>
      cases hsrc : spec.Source with
      | none => simp only [hsrc]
      | some source =>
        by_cases ht : source.Type_ = GitType
        · cases hg : source.Git with
          | none => simp only [hsrc, ht, hg, ne_eq, not_true_eq_false, if_false]
          | some git =>
            by_cases hu : stringsContains git.URL repo = true
            · exfalso
              apply h
              exact ⟨⟨t, hc⟩, spec, source, git, hs, hsrc, ht, hg,
                (stringsContains_iff _ _).mp hu⟩
            · simp only [hsrc, ht, hg, hu, ne_eq, not_true_eq_false, if_false,
                Bool.false_eq_true]
        · simp only [hsrc, ht, ne_eq, not_false_eq_true, if_true]

theorem findBuildRunStep_candidate (repo : String) (cand : Option BuildRun) (e : BuildRun)
    (t : Time) (hc : CompletedAt e t) (hr : RunReferences repo e) :
    findBuildRunStep repo cand e =
      match cand with
      | none => some e
      | some c => if timeBefore c.Status.CompletionTime (some t) then some e else some c := by
  obtain ⟨spec, source, git, hs, hsrc, ht, hg, hu⟩ := hr
  have hu1 : stringsContains git.URL repo = true := (stringsContains_iff _ _).mpr hu
  unfold CompletedAt at hc
  unfold findBuildRunStep
  simp only [hc, hs, hsrc, ht, hg, hu1, ne_eq, not_true_eq_false, if_false, if_true]

theorem findBuildRunLoop_append (repo : String) (l1 l2 : List BuildRun)
    (cand : Option BuildRun) :
    findBuildRunLoop repo (l1 ++ l2) cand =
      findBuildRunLoop repo l2 (findBuildRunLoop repo l1 cand) := by
  induction l1 generalizing cand with
  | nil => rfl
  | cons e l1 ih =>
    show findBuildRunLoop repo (l1 ++ l2) _ = _
    exact ih _

theorem findBuildRunLoop_keep (repo : String) (l : List BuildRun) (c0 : BuildRun) (t0 : Time)
    (h0 : CompletedAt c0 t0)
    (hl : ∀ x ∈ l, RunReferences repo x → ∀ t, CompletedAt x t → t ≤ t0) :
    findBuildRunLoop repo l (some c0) = some c0 := by
  induction l with
  | nil => rfl
  | cons e l ih =>
    have hstep : findBuildRunStep repo (some c0) e = some c0 := by
      by_cases hcand : (∃ t, CompletedAt e t) ∧ RunReferences repo e
      · obtain ⟨⟨t, ht⟩, hr⟩ := hcand
        rw [findBuildRunStep_candidate repo _ e t ht hr]
        have hle : t ≤ t0 := hl e (List.mem_cons_self _ _) hr t ht
        unfold CompletedAt at h0
        simp only [h0, timeBefore, decide_eq_true_eq]
        rw [if_neg (not_lt.mpr hle)]
      · exact findBuildRunStep_skip repo _ e hcand
    simp only [findBuildRunLoop, hstep]
    exact ih (fun x hx => hl x (List.mem_cons_of_mem _ hx))

theorem findBuildRunLoop_origin (repo : String) (l : List BuildRun) (cand : Option BuildRun) :
    findBuildRunLoop repo l cand = cand ∨
      ∃ e ∈ l, (∃ t, CompletedAt e t) ∧ RunReferences repo e ∧
        findBuildRunLoop repo l cand = some e := by
  induction l generalizing cand with
  | nil => exact Or.inl rfl
  | cons e l ih =>
    simp only [findBuildRunLoop]
    rcases ih (findBuildRunStep repo cand e) with h | ⟨x, hx, hc, hr, h⟩
    · by_cases hcand : (∃ t, CompletedAt e t) ∧ RunReferences repo e
      · obtain ⟨⟨t, ht⟩, hr⟩ := hcand
        rw [h, findBuildRunStep_candidate repo _ e t ht hr]
        cases cand with
        | none => exact Or.inr ⟨e, List.mem_cons_self _ _, ⟨t, ht⟩, hr, rfl⟩
        | some c =>
          by_cases hb : timeBefore c.Status.CompletionTime (some t) = true
          · exact Or.inr ⟨e, List.mem_cons_self _ _, ⟨t, ht⟩, hr, by simp [hb]⟩
          · exact Or.inl (by simp [hb])
      · rw [h, findBuildRunStep_skip repo _ e hcand]
        exact Or.inl rfl
    · exact Or.inr ⟨x, List.mem_cons_of_mem _ hx, hc, hr, h⟩

theorem findBuildRunLoop_first_latest (repo : String) (pre post : List BuildRun)
    (c0 : BuildRun) (t0 : Time) (h0 : CompletedAt c0 t0) (hr : RunReferences repo c0)
    (hpre : ∀ x ∈ pre, RunReferences repo x → ∀ t, CompletedAt x t → t < t0)
    (hpost : ∀ x ∈ post, RunReferences repo x → ∀ t, CompletedAt x t → t ≤ t0) :
    findBuildRunLoop repo (pre ++ c0 :: post) none = some c0 := by
  rw [findBuildRunLoop_append]
  simp only [findBuildRunLoop]
  have hstep : findBuildRunStep repo (findBuildRunLoop repo pre none) c0 = some c0 := by
    rw [findBuildRunStep_candidate repo _ c0 t0 h0 hr]
    rcases findBuildRunLoop_origin repo pre none with h | ⟨x, hx, ⟨t, ht⟩, hxr, h⟩
    · rw [h]
    · rw [h]
      have hlt : t < t0 := hpre x hx hxr t ht
      unfold CompletedAt at ht
      simp only [ht, timeBefore, decide_eq_true_eq]
      rw [if_pos hlt]
  rw [hstep]
  exact findBuildRunLoop_keep repo post c0 t0 h0 hpost

theorem exists_first_max {α : Type} (P : α → Prop) (key : α → Int) (l : List α)
    (h : ∃ x ∈ l, P x) :
    ∃ pre c post, l = pre ++ c :: post ∧ P c ∧
      (∀ x ∈ pre, P x → key x < key c) ∧ (∀ x ∈ post, P x → key x ≤ key c) := by
  induction l with
  | nil => simp at h
  | cons a l ih =>
    by_cases hl : ∃ x ∈ l, P x
    · obtain ⟨pre, c, post, hsplit, hPc, hpre, hpost⟩ := ih hl
      by_cases ha : P a ∧ key c ≤ key a
      · refine ⟨[], a, l, rfl, ha.1, by simp, ?_⟩
        intro x hx hPx
        rw [hsplit] at hx
        rcases List.mem_append.mp hx with hx | hx
        · have := hpre x hx hPx
          omega
        · rcases List.mem_cons.mp hx with hx | hx
          · rw [hx]
            exact ha.2
          · have := hpost x hx hPx
            omega
      · refine ⟨a :: pre, c, post, by rw [hsplit]; rfl, hPc, ?_, hpost⟩
        intro x hx hPx
        rcases List.mem_cons.mp hx with hx | hx
        · subst hx
          by_contra hlt
          exact ha ⟨hPx, by omega⟩
        · exact hpre x hx hPx
    · obtain ⟨x, hx, hPx⟩ := h
      rcases List.mem_cons.mp hx with hx | hx
      · subst hx
        refine ⟨[], x, l, rfl, hPx, by simp, ?_⟩
        intro y hy hPy
        exact absurd ⟨y, hy, hPy⟩ hl
      · exact absurd ⟨x, hx, hPx⟩ hl

theorem findBuildRunLoop_latest (repo : String) (E : List BuildRun)
    (h : ∃ e ∈ E, (∃ t, CompletedAt e t) ∧ RunReferences repo e) :
    ∃ r tr, findBuildRunLoop repo E none = some r ∧ r ∈ E ∧ RunReferences repo r ∧
      CompletedAt r tr ∧
      ∀ e ∈ E, RunReferences repo e → ∀ t, CompletedAt e t → t ≤ tr := by
  obtain ⟨pre, c0, post, hsplit, ⟨⟨t0, h0⟩, hr⟩, hpre, hpost⟩ :=
    exists_first_max (fun e => (∃ t, CompletedAt e t) ∧ RunReferences repo e)
      (fun e => e.Status.CompletionTime.getD 0) E h
  have key0 : c0.Status.CompletionTime.getD 0 = t0 := by
    unfold CompletedAt at h0
    simp [h0]
  have hpre1 : ∀ x ∈ pre, RunReferences repo x → ∀ t, CompletedAt x t → t < t0 := by
    intro x hx hxr t ht
    have := hpre x hx ⟨⟨t, ht⟩, hxr⟩
    unfold CompletedAt at ht
    simp only [ht, Option.getD_some, key0] at this
    exact this
  have hpost1 : ∀ x ∈ post, RunReferences repo x → ∀ t, CompletedAt x t → t ≤ t0 := by
    intro x hx hxr t ht
    have := hpost x hx ⟨⟨t, ht⟩, hxr⟩
    unfold CompletedAt at ht
    simp only [ht, Option.getD_some, key0] at this
    exact this
  refine ⟨c0, t0, ?_, ?_, hr, h0, ?_⟩
  · rw [hsplit]
    exact findBuildRunLoop_first_latest repo pre post c0 t0 h0 hr hpre1 hpost1
  · rw [hsplit]
    simp
  · intro e he her t ht
    rw [hsplit] at he
    rcases List.mem_append.mp he with he | he
    · exact le_of_lt (hpre1 e he her t ht)
    · rcases List.mem_cons.mp he with he | he
      · subst he
        unfold CompletedAt at ht h0
        rw [h0] at ht
        simp only [Option.some.injEq] at ht
        exact le_of_eq ht.symm
      · exact hpost1 e he her t ht

theorem findBuildRunLoop_none (repo : String) (E : List BuildRun)
    (h : ∀ e ∈ E, ¬ ((∃ t, CompletedAt e t) ∧ RunReferences repo e)) :
    findBuildRunLoop repo E none = none := by
  rcases findBuildRunLoop_origin repo E none with h1 | ⟨e, he, hc, hr, _⟩
  · exact h1
  · exact absurd ⟨hc, hr⟩ (h e he)

/-- C2: when every listed execution carries a completion instant,
`findBuildRun` returns none if no execution embeds a git source whose URL
contains the reference, and otherwise returns such an execution of the list
whose completion instant is the greatest among them; with two matching
executions completed at `t1 < t2` it returns the one completed at `t2`. -/
theorem findBuildRun_latest (c : Cluster) (namespace_ repo : String) (E : List BuildRun)
    (hE : c.listBuildRuns namespace_ = .ok E)
    (hall : ∀ e ∈ E, ∃ t, CompletedAt e t) :
    ((∀ e ∈ E, ¬ RunReferences repo e) → findBuildRun c namespace_ repo = .ok none) ∧
    ((∃ e ∈ E, RunReferences repo e) →
      ∃ r tr, findBuildRun c namespace_ repo = .ok (some r) ∧ r ∈ E ∧
        RunReferences repo r ∧ CompletedAt r tr ∧
        ∀ e ∈ E, RunReferences repo e → ∀ t, CompletedAt e t → t ≤ tr) ∧
    (∀ a b t1 t2, a ∈ E → b ∈ E → RunReferences repo a → RunReferences repo b →
      CompletedAt a t1 → CompletedAt b t2 → t1 < t2 →
      (∀ e ∈ E, RunReferences repo e → e = a ∨ e = b) →
      findBuildRun c namespace_ repo = .ok (some b)) := by
  have hmax : (∃ e ∈ E, RunReferences repo e) →
      ∃ r tr, findBuildRun c namespace_ repo = .ok (some r) ∧ r ∈ E ∧
        RunReferences repo r ∧ CompletedAt r tr ∧
        ∀ e ∈ E, RunReferences repo e → ∀ t, CompletedAt e t → t ≤ tr := by
    rintro ⟨e, he, her⟩
    obtain ⟨r, tr, h1, h2, h3, h4, h5⟩ :=
      findBuildRunLoop_latest repo E ⟨e, he, hall e he, her⟩
    exact ⟨r, tr, by simp only [findBuildRun, hE, h1], h2, h3, h4, h5⟩
  refine ⟨?_, hmax, ?_⟩
  · intro hno
    simp only [findBuildRun, hE]
    rw [findBuildRunLoop_none repo E (fun e he h => hno e he h.2)]
  · intro a b t1 t2 ha hb har hbr hat hbt hlt honly
    obtain ⟨r, tr, h1, h2, h3, h4, h5⟩ := hmax ⟨a, ha, har⟩
    have hb2 : t2 ≤ tr := h5 b hb hbr t2 hbt
    rcases honly r h2 h3 with hra | hrb
    · subst hra
      unfold CompletedAt at h4 hat
      rw [hat] at h4
      simp only [Option.some.injEq] at h4
      subst h4
      exact absurd hlt (not_lt.mpr hb2)
    · rw [h1, hrb]

/-- Witness of C2: scenario 4, two matching executions completed at 1 and
at 2, listed with the later one first or last. -/
theorem findBuildRun_latest_witness :
    findBuildRun (clusterOfRuns [gitRun "late" "https://example.com/org/app" "registry/app:v2" (some 2),
        gitRun "early" "https://example.com/org/app" "registry/app:v2" (some 1)])
      "ns" "https://example.com/org/app" =
      .ok (some (gitRun "late" "https://example.com/org/app" "registry/app:v2" (some 2))) :=
  (findBuildRun_latest
    (clusterOfRuns [gitRun "late" "https://example.com/org/app" "registry/app:v2" (some 2),
        gitRun "early" "https://example.com/org/app" "registry/app:v2" (some 1)])
    "ns" "https://example.com/org/app"
    [gitRun "late" "https://example.com/org/app" "registry/app:v2" (some 2),
      gitRun "early" "https://example.com/org/app" "registry/app:v2" (some 1)]
    rfl
    (by
      intro e he
      simp only [List.mem_cons, List.mem_singleton, List.not_mem_nil, or_false] at he
      rcases he with rfl | rfl
      · exact ⟨2, by simp [CompletedAt, gitRun]⟩
      · exact ⟨1, by simp [CompletedAt, gitRun]⟩)).2.2
    (gitRun "early" "https://example.com/org/app" "registry/app:v2" (some 1))
    (gitRun "late" "https://example.com/org/app" "registry/app:v2" (some 2))
    1 2 (by simp) (by simp)
    ⟨gitSpec "https://example.com/org/app" "registry/app:v2",
      ⟨GitType, some ⟨"https://example.com/org/app"⟩⟩, ⟨"https://example.com/org/app"⟩,
      rfl, rfl, rfl, rfl, [], [], by decide⟩
    ⟨gitSpec "https://example.com/org/app" "registry/app:v2",
      ⟨GitType, some ⟨"https://example.com/org/app"⟩⟩, ⟨"https://example.com/org/app"⟩,
      rfl, rfl, rfl, rfl, [], [], by decide⟩
    (by simp [CompletedAt, gitRun]) (by simp [CompletedAt, gitRun]) (by decide)
    (by
      intro e he _
      simp only [List.mem_cons, List.mem_singleton, List.not_mem_nil, or_false] at he
      rcases he with rfl | rfl
      · exact Or.inr rfl
      · exact Or.inl rfl)

/-- C3: when a matching, completed execution `c0` of the list is completed
strictly later than every matching execution listed before it and not
earlier than any listed after it, `findBuildRun` returns `c0`, the earliest
listed of the executions with the latest completion instant; and one
iteration replaces the current candidate only by a matching execution with a
strictly later completion instant. -/
theorem findBuildRun_tie_keeps_earliest (c : Cluster) (namespace_ repo : String)
    (pre post : List BuildRun) (c0 : BuildRun) (t0 : Time)
    (hE : c.listBuildRuns namespace_ = .ok (pre ++ c0 :: post))
    (h0 : CompletedAt c0 t0) (hr : RunReferences repo c0)
    (hpre : ∀ x ∈ pre, RunReferences repo x → ∀ t, CompletedAt x t → t < t0)
    (hpost : ∀ x ∈ post, RunReferences repo x → ∀ t, CompletedAt x t → t ≤ t0) :
    findBuildRun c namespace_ repo = .ok (some c0) ∧
    ∀ cand e, findBuildRunStep repo (some cand) e ≠ some cand →
      findBuildRunStep repo (some cand) e = some e ∧ RunReferences repo e ∧
        ∃ tc t, CompletedAt cand tc ∧ CompletedAt e t ∧ tc < t := by
  constructor
  · simp only [findBuildRun, hE]
    rw [findBuildRunLoop_first_latest repo pre post c0 t0 h0 hr hpre hpost]
  · intro cand e hne
    by_cases hcand : (∃ t, CompletedAt e t) ∧ RunReferences repo e
    · obtain ⟨⟨t, ht⟩, her⟩ := hcand
      rw [findBuildRunStep_candidate repo _ e t ht her] at hne ⊢
      by_cases hb : timeBefore cand.Status.CompletionTime (some t) = true
      · refine ⟨by simp only [hb, if_true], her, ?_⟩
        cases hct : cand.Status.CompletionTime with
        | none => simp [hct, timeBefore] at hb
        | some tc =>
          simp only [hct, timeBefore, decide_eq_true_eq] at hb
          exact ⟨tc, t, hct, ht, hb⟩
      · simp only [hb, Bool.false_eq_true, if_false, ne_eq, not_true_eq_false] at hne
    · exact absurd (findBuildRunStep_skip repo _ e hcand) hne

/-- Witness of C3: two matching executions both completed at 5, after one
completed at 1; the first of the two is returned. -/
theorem findBuildRun_tie_keeps_earliest_witness :
    findBuildRun (clusterOfRuns [gitRun "old" "https://example.com/org/app" "registry/app:v2" (some 1),
        gitRun "first" "https://example.com/org/app" "registry/app:v2" (some 5),
        gitRun "second" "https://example.com/org/app" "registry/app:v2" (some 5)])
      "ns" "https://example.com/org/app" =
      .ok (some (gitRun "first" "https://example.com/org/app" "registry/app:v2" (some 5))) :=
  (findBuildRun_tie_keeps_earliest
    (clusterOfRuns [gitRun "old" "https://example.com/org/app" "registry/app:v2" (some 1),
        gitRun "first" "https://example.com/org/app" "registry/app:v2" (some 5),
        gitRun "second" "https://example.com/org/app" "registry/app:v2" (some 5)])
    "ns" "https://example.com/org/app"
    [gitRun "old" "https://example.com/org/app" "registry/app:v2" (some 1)]
    [gitRun "second" "https://example.com/org/app" "registry/app:v2" (some 5)]
    (gitRun "first" "https://example.com/org/app" "registry/app:v2" (some 5)) 5
    rfl (by simp [CompletedAt, gitRun])
    ⟨gitSpec "https://example.com/org/app" "registry/app:v2",
      ⟨GitType, some ⟨"https://example.com/org/app"⟩⟩, ⟨"https://example.com/org/app"⟩,
      rfl, rfl, rfl, rfl, [], [], by decide⟩
    (by
      intro x hx _ t ht
      simp only [List.mem_singleton] at hx
      subst hx
      simp only [CompletedAt, gitRun, Option.some.injEq] at ht
      subst ht
      decide)
    (by
      intro x hx _ t ht
      simp only [List.mem_singleton] at hx
      subst hx
      simp only [CompletedAt, gitRun, Option.some.injEq] at ht
      subst ht
      decide)).1

/-! ## Theorems: the Timeout Resolver -/

/-- C4: `lookUpTimeout` returns the timeout of the execution when it is set,
whatever the parent and the inline spec say; without it, the timeout of the
parent definition that the execution names and that is fetched, whatever the
inline spec says; without both, the timeout of the inline spec; and without
all three, 600000000000 nanoseconds, which is 10 minutes. -/
theorem lookUpTimeout_precedence (c : Cluster) (buildRun : BuildRun) :
    (∀ T1, buildRun.Spec.Timeout = some T1 → lookUpTimeout c buildRun = T1) ∧
    (∀ name build T2, buildRun.Spec.Timeout = none →
      buildRun.Spec.Build.Name = some name →
      c.getBuild buildRun.Namespace name = .ok build → build.Spec.Timeout = some T2 →
      lookUpTimeout c buildRun = T2) ∧
    (∀ spec T3, buildRun.Spec.Timeout = none → ParentTimeoutAbsent c buildRun →
      buildRun.Spec.Build.Spec = some spec → spec.Timeout = some T3 →
      lookUpTimeout c buildRun = T3) ∧
    (buildRun.Spec.Timeout = none → ParentTimeoutAbsent c buildRun →
      (∀ spec, buildRun.Spec.Build.Spec = some spec → spec.Timeout = none) →
      lookUpTimeout c buildRun = 600000000000 ∧
        (600000000000 : Duration) = 10 * (60 * Second)) := by
  have hparent : ParentTimeoutAbsent c buildRun →
      (match buildRun.Spec.Build.Name with
        | none => none
        | some name =>
          match c.getBuild buildRun.Namespace name with
          | .ok build => build.Spec.Timeout
          | .error _ => none) = (none : Option Duration) := by
    intro hp
    cases hn : buildRun.Spec.Build.Name with
    | none => rfl
    | some name =>
      cases hg : c.getBuild buildRun.Namespace name with
      | error e => simp only [hg]
      | ok build =>
        simp only [hg]
        exact hp name hn build hg
  refine ⟨?_, ?_, ?_, ?_⟩
  · intro T1 h1
    simp only [lookUpTimeout, h1]
  · intro name build T2 h1 hn hg h2
    simp only [lookUpTimeout, h1, hn, hg, h2]
  · intro spec T3 h1 hp hs h3
    simp only [lookUpTimeout, h1, hparent hp, hs, h3]
  · intro h1 hp hs
    refine ⟨?_, by decide⟩
    cases hsp : buildRun.Spec.Build.Spec with
    | none => simp only [lookUpTimeout, h1, hparent hp, hsp]; decide
    | some spec => simp only [lookUpTimeout, h1, hparent hp, hsp, hs spec hsp]; decide

/-- Witness of C4: timeouts of 1, 2 and 3 seconds on the execution, on the
parent and on the inline spec, removed one after the other. -/
theorem lookUpTimeout_precedence_witness :
    lookUpTimeout (clusterOfParent (some (2 * Second)))
        (timeoutRun (some (1 * Second)) (some "app") (some (3 * Second))) = 1 * Second ∧
    lookUpTimeout (clusterOfParent (some (2 * Second)))
        (timeoutRun none (some "app") (some (3 * Second))) = 2 * Second ∧
    lookUpTimeout (clusterOfParent none)
        (timeoutRun none (some "app") (some (3 * Second))) = 3 * Second ∧
    lookUpTimeout (clusterOfParent none) (timeoutRun none (some "app") none) = 600000000000 :=
  ⟨(lookUpTimeout_precedence (clusterOfParent (some (2 * Second)))
      (timeoutRun (some (1 * Second)) (some "app") (some (3 * Second)))).1 _ rfl,
   (lookUpTimeout_precedence (clusterOfParent (some (2 * Second)))
      (timeoutRun none (some "app") (some (3 * Second)))).2.1 "app"
      { Name := "app", Namespace := "ns", Spec := plainSpec (some (2 * Second)) }
      _ rfl rfl rfl rfl,
   (lookUpTimeout_precedence (clusterOfParent none)
      (timeoutRun none (some "app") (some (3 * Second)))).2.2.1
      (plainSpec (some (3 * Second))) _ rfl
      (by
        intro name _ build hb
        simp only [clusterOfParent, Except.ok.injEq] at hb
        subst hb
        rfl)
      rfl rfl,
   ((lookUpTimeout_precedence (clusterOfParent none) (timeoutRun none (some "app") none)).2.2.2
      rfl
      (by
        intro name _ build hb
        simp only [clusterOfParent, Except.ok.injEq] at hb
        subst hb
        rfl)
      (by
        intro spec hs
        simp only [timeoutRun, Option.some.injEq] at hs
        subst hs
        rfl)).1⟩

/-! ## Theorems: one poll of the Completion Waiter -/

theorem conditionTrue_ne_false : ConditionTrue ≠ ConditionFalse := by decide

theorem conditionFunc_succeeded (c : Cluster) (k : Nat) (cur fetched : BuildRun)
    (hf : c.getBuildRun k cur.Namespace cur.Name = .ok fetched) (hs : IsSucceeded fetched) :
    conditionFunc c k cur = { buildRun := fetched, done := true, err := none } := by
  obtain ⟨h1, h2⟩ := hs
  unfold SucceededStatus at h1
  cases hG : GetCondition fetched.Status Succeeded with
  | none => simp [hG] at h1
  | some cond =>
    simp only [hG, Option.map_some', Option.some.injEq] at h1
    simp only [conditionFunc, hf, hG, h1, h2, ne_eq, not_false_eq_true, if_true]

theorem conditionFunc_failed (c : Cluster) (k : Nat) (cur fetched : BuildRun) (cond : Condition)
    (hf : c.getBuildRun k cur.Namespace cur.Name = .ok fetched)
    (hG : GetCondition fetched.Status Succeeded = some cond)
    (hs : cond.Status = ConditionFalse) :
    conditionFunc c k cur =
      { buildRun := fetched, done := false, err := some (Errorf0 cond.Message) } := by
  have hne : ¬ ConditionFalse = ConditionTrue := fun h => conditionTrue_ne_false h.symm
  simp only [conditionFunc, hf, hG, hs, hne, if_false, if_true]

theorem conditionFunc_pending (c : Cluster) (k : Nat) (cur fetched : BuildRun)
    (hf : c.getBuildRun k cur.Namespace cur.Name = .ok fetched)
    (hs : ¬ IsSucceeded fetched) (hfl : ¬ IsFailed fetched) :
    conditionFunc c k cur = { buildRun := fetched, done := false, err := none } := by
  unfold IsSucceeded SucceededStatus at hs
  unfold IsFailed SucceededStatus at hfl
  cases hG : GetCondition fetched.Status Succeeded with
  | none => simp only [conditionFunc, hf, hG]
  | some cond =>
    simp only [hG, Option.map_some', Option.some.injEq] at hs hfl
    by_cases h1 : cond.Status = ConditionTrue
    · have h2 : fetched.Status.CompletionTime = none := by
        by_contra h2
        exact hs ⟨h1, h2⟩
      simp only [conditionFunc, hf, hG, h1, h2, ne_eq, not_true_eq_false, if_false, if_true]
    · simp only [conditionFunc, hf, hG, h1, hfl, if_false]

/-- C5: for a fetched execution, one call of `conditionFunc` reports done
without error if and only if the Succeeded condition has status true and the
completion instant is set; when the condition is absent, or has status
unknown, or has status true without a completion instant, the call reports
not done without error, holding the fetched execution. -/
theorem conditionFunc_done_iff (c : Cluster) (k : Nat) (cur fetched : BuildRun)
    (hf : c.getBuildRun k cur.Namespace cur.Name = .ok fetched) :
    (((conditionFunc c k cur).done = true ∧ (conditionFunc c k cur).err = none) ↔
      IsSucceeded fetched) ∧
    ((SucceededStatus fetched = none ∨ SucceededStatus fetched = some ConditionUnknown ∨
        (SucceededStatus fetched = some ConditionTrue ∧
          fetched.Status.CompletionTime = none)) →
      conditionFunc c k cur = { buildRun := fetched, done := false, err := none }) := by
  constructor
  · constructor
    · rintro ⟨hd, _⟩
      by_contra hs
      by_cases hfl : IsFailed fetched
      · unfold IsFailed SucceededStatus at hfl
        cases hG : GetCondition fetched.Status Succeeded with
        | none => simp [hG] at hfl
        | some cond =>
          simp only [hG, Option.map_some', Option.some.injEq] at hfl
          rw [conditionFunc_failed c k cur fetched cond hf hG hfl] at hd
          simp at hd
      · rw [conditionFunc_pending c k cur fetched hf hs hfl] at hd
        simp at hd
    · intro hs
      rw [conditionFunc_succeeded c k cur fetched hf hs]
      exact ⟨rfl, rfl⟩
  · intro h
    apply conditionFunc_pending c k cur fetched hf
    · rintro ⟨h1, h2⟩
      rcases h with h | h | ⟨_, h⟩
      · rw [h] at h1
        simp at h1
      · rw [h] at h1
        revert h1
        decide
      · exact h2 h
    · intro hfl
      unfold IsFailed at hfl
      rcases h with h | h | ⟨h, _⟩
      · rw [h] at hfl
        simp at hfl
      · rw [h] at hfl
        revert hfl
        decide
      · rw [h] at hfl
        revert hfl
        decide

/-- Witness of C5: a fetched execution whose Succeeded condition is true and
whose completion instant is set ends the poll. -/
theorem conditionFunc_done_iff_witness :
    ((conditionFunc (clusterOfStatuses [statusRun [⟨Succeeded, ConditionTrue, "done"⟩] (some 7)])
          0 (statusRun [] none)).done = true ∧
      (conditionFunc (clusterOfStatuses [statusRun [⟨Succeeded, ConditionTrue, "done"⟩] (some 7)])
          0 (statusRun [] none)).err = none) ↔
      IsSucceeded (statusRun [⟨Succeeded, ConditionTrue, "done"⟩] (some 7)) :=
  (conditionFunc_done_iff
    (clusterOfStatuses [statusRun [⟨Succeeded, ConditionTrue, "done"⟩] (some 7)])
    0 (statusRun [] none) (statusRun [⟨Succeeded, ConditionTrue, "done"⟩] (some 7)) rfl).1

/-! ## Theorems: the failure detail -/

theorem doPrintfLoop_plain (fuel : Nat) (s : List Char) (h : '%' ∉ s) :
    doPrintfLoop (fuel + 1) s = s := by
  have h1 : ∀ ch ∈ s, (ch != '%') = true := by
    intro ch hch
    simp only [bne_iff_ne, ne_eq]
    rintro rfl
    exact h hch
  have h2 : s.takeWhile (fun ch => ch != '%') = s := List.takeWhile_eq_self_iff.mpr h1
  have h3 : s.dropWhile (fun ch => ch != '%') = [] := List.dropWhile_eq_nil_iff.mpr h1
  simp only [doPrintfLoop, h2, h3]

theorem Errorf0_plain (msg : String) (h : '%' ∉ msg.toList) :
    (Errorf0 msg).text = msg := by
  simp only [Errorf0, Error.text, Sprintf0, doPrintfLoop_plain _ _ h]
  rfl

/-- C6, on the code: a fetched execution whose Succeeded condition has status
false and the message `disk 100% full` makes `conditionFunc` return an error
whose text is `disk 100%!f(MISSING)ull`, not the message: the message is
handed to `fmt.Errorf` as the format string. -/
theorem conditionFunc_failed_message_percent :
    (conditionFunc
        (clusterOfStatuses [statusRun [⟨Succeeded, ConditionFalse, "disk 100% full"⟩] none])
        0 (statusRun [] none)).err =
      some (Error.errorString "disk 100%!f(MISSING)ull") ∧
    (Error.errorString "disk 100%!f(MISSING)ull").text ≠ "disk 100% full" := by
  constructor
  · rw [conditionFunc_failed _ 0 _
      (statusRun [⟨Succeeded, ConditionFalse, "disk 100% full"⟩] none)
      ⟨Succeeded, ConditionFalse, "disk 100% full"⟩ rfl rfl rfl]
    decide
  · decide

/-! ## Theorems: the poll loop -/

theorem pollLoop_stop (interval timeout : Duration) (condition : Nat → BuildRun → PollStep)
    (ticks k : Nat) (cur : BuildRun)
    (h : ((condition k cur).err.isSome || (condition k cur).done) = true) :
    pollLoop interval timeout condition ticks k cur =
      { buildRun := (condition k cur).buildRun, err := (condition k cur).err,
        polls := k + 1, elapsed := k * interval } := by
  cases ticks with
  | zero => simp only [pollLoop, h, if_true]
  | succ t => simp only [pollLoop, h, if_true]

theorem pollLoop_succeeds (c : Cluster) (interval timeout : Duration) (st : BuildRun)
    (hsucc : IsSucceeded st) (sts : List BuildRun) :
    ∀ (cur : BuildRun) (k ticks : Nat), Serves c cur k (sts ++ [st]) →
      (∀ x ∈ sts, ¬ IsSucceeded x ∧ ¬ IsFailed x) → sts.length ≤ ticks →
      pollLoop interval timeout (conditionFunc c) ticks k cur =
        { buildRun := st, err := none, polls := k + sts.length + 1,
          elapsed := ((k + sts.length : Nat) : Int) * interval } := by
  induction sts with
  | nil =>
    intro cur k ticks hserve _ _
    have hf : c.getBuildRun k cur.Namespace cur.Name = .ok st := hserve.1
    rw [pollLoop_stop _ _ _ _ _ _ (by rw [conditionFunc_succeeded c k cur st hf hsucc]; rfl)]
    rw [conditionFunc_succeeded c k cur st hf hsucc]
    rfl
  | cons x sts ih =>
    intro cur k ticks hserve hpending hlen
    have hf : c.getBuildRun k cur.Namespace cur.Name = .ok x := hserve.1
    have hnext : Serves c x (k + 1) (sts ++ [st]) := hserve.2
    have hx := hpending x (List.mem_cons_self _ _)
    have hstep := conditionFunc_pending c k cur x hf hx.1 hx.2
    cases ticks with
    | zero => simp at hlen
    | succ t =>
      have hlen1 : sts.length ≤ t := by
        simp only [List.length_cons] at hlen
        omega
      simp only [pollLoop, hstep, Option.isSome_none, Bool.or_self, Bool.false_eq_true,
        if_false]
      rw [ih x (k + 1) t hnext (fun y hy => hpending y (List.mem_cons_of_mem _ hy)) hlen1]
      simp only [List.length_cons, PollResult.mk.injEq, true_and]
      constructor
      · omega
      · congr 2
        omega

theorem pollLoop_times_out (c : Cluster) (interval timeout : Duration) (ticks : Nat) :
    ∀ (sts : List BuildRun) (cur : BuildRun) (k : Nat), Serves c cur k sts →
      (∀ x ∈ sts, ¬ IsSucceeded x ∧ ¬ IsFailed x) → ticks < sts.length →
      ∃ last, pollLoop interval timeout (conditionFunc c) ticks k cur =
        { buildRun := last, err := some Error.deadlineExceeded, polls := k + ticks + 1,
          elapsed := max (((k + ticks : Nat) : Int) * interval) timeout } := by
  induction ticks with
  | zero =>
    intro sts cur k hserve hpending hlen
    cases sts with
    | nil => simp at hlen
    | cons x sts =>
      have hx := hpending x (List.mem_cons_self _ _)
      have hstep := conditionFunc_pending c k cur x hserve.1 hx.1 hx.2
      exact ⟨x, by simp only [pollLoop, hstep, Option.isSome_none, Bool.or_self,
        Bool.false_eq_true, if_false, Nat.add_zero]⟩
  | succ t ih =>
    intro sts cur k hserve hpending hlen
    cases sts with
    | nil => simp at hlen
    | cons x sts =>
      have hx := hpending x (List.mem_cons_self _ _)
      have hstep := conditionFunc_pending c k cur x hserve.1 hx.1 hx.2
      have hlen1 : t < sts.length := by
        simp only [List.length_cons] at hlen
        omega
      obtain ⟨last, hlast⟩ :=
        ih sts x (k + 1) hserve.2 (fun y hy => hpending y (List.mem_cons_of_mem _ hy)) hlen1
      refine ⟨last, ?_⟩
      simp only [pollLoop, hstep, Option.isSome_none, Bool.or_self, Bool.false_eq_true,
        if_false]
      rw [hlast]
      simp only [PollResult.mk.injEq, true_and]
      constructor
      · omega
      · congr 3
        omega

theorem serves_congr (c : Cluster) (g : Nat → String → String → Except Error BuildRun)
    (sts : List BuildRun) :
    ∀ (cur : BuildRun) (k : Nat), (∀ j, k ≤ j → j < k + sts.length → g j = c.getBuildRun j) →
      Serves c cur k sts → Serves { c with getBuildRun := g } cur k sts := by
  induction sts with
  | nil =>
    intro cur k _ _
    trivial
  | cons x sts ih =>
    intro cur k hg hserve
    constructor
    · show g k cur.Namespace cur.Name = .ok x
      rw [hg k (le_refl _) (by simp)]
      exact hserve.1
    · apply ih x (k + 1) _ hserve.2
      intro j hj1 hj2
      apply hg j (by omega)
      simp only [List.length_cons]
      omega

theorem le_ticksBeforeDeadline (n : Nat) (timeout : Duration)
    (h : n = 0 ∨ (n : Int) * pollInterval < timeout) :
    n ≤ ticksBeforeDeadline pollInterval timeout := by
  have hI : pollInterval = 10000000000 := by decide
  rw [hI] at h ⊢
  unfold ticksBeforeDeadline
  unfold Duration at *
  rcases h with h | h
  · omega
  · split
    · omega
    · omega

theorem ticksBeforeDeadline_spec (timeout : Duration) :
    (ticksBeforeDeadline pollInterval timeout = 0 ∨
      (ticksBeforeDeadline pollInterval timeout : Int) * pollInterval < timeout) ∧
    timeout ≤ ((ticksBeforeDeadline pollInterval timeout + 1 : Nat) : Int) * pollInterval := by
  have hI : pollInterval = 10000000000 := by decide
  rw [hI]
  unfold ticksBeforeDeadline
  unfold Duration at *
  split
  · constructor
    · left
      rfl
    · omega
  · constructor
    · right
      omega
    · omega

/-! ## Theorems: the Completion Waiter -/

/-- C7: when the cluster serves the statuses `sts` and then `st`, no status
of `sts` is terminal, `st` is a success, and the poll that fetches `st` is the
first one or is due before the deadline, `waitForBuildRunCompletion` returns
`st` without error after exactly `sts.length + 1` fetches; `st` has its
completion instant set and its Succeeded condition true; and the answers the
cluster would give to later fetches do not change the result. -/
theorem waitForBuildRunCompletion_succeeds (c : Cluster) (buildRun : BuildRun)
    (sts : List BuildRun) (st : BuildRun)
    (hserve : Serves c buildRun 0 (sts ++ [st]))
    (hpending : ∀ x ∈ sts, ¬ IsSucceeded x ∧ ¬ IsFailed x)
    (hsucc : IsSucceeded st)
    (hdeadline : sts.length = 0 ∨
      (sts.length : Int) * pollInterval < lookUpTimeout c buildRun) :
    waitForBuildRunCompletion c buildRun =
      { buildRun := some st, err := none, polls := sts.length + 1,
        elapsed := (sts.length : Int) * pollInterval } ∧
    st.Status.CompletionTime ≠ none ∧ SucceededStatus st = some ConditionTrue ∧
    ∀ g : Nat → String → String → Except Error BuildRun,
      (∀ k, k ≤ sts.length → g k = c.getBuildRun k) →
      waitForBuildRunCompletion { c with getBuildRun := g } buildRun =
        waitForBuildRunCompletion c buildRun := by
  have main : ∀ c1 : Cluster, lookUpTimeout c1 buildRun = lookUpTimeout c buildRun →
      Serves c1 buildRun 0 (sts ++ [st]) →
      waitForBuildRunCompletion c1 buildRun =
        { buildRun := some st, err := none, polls := sts.length + 1,
          elapsed := (sts.length : Int) * pollInterval } := by
    intro c1 htime hserve1
    have hticks := le_ticksBeforeDeadline sts.length (lookUpTimeout c buildRun) hdeadline
    have hloop := pollLoop_succeeds c1 pollInterval (lookUpTimeout c buildRun) st hsucc sts
      buildRun 0 _ hserve1 hpending hticks
    simp only [waitForBuildRunCompletion, PollUntilContextTimeout, htime, hloop, Nat.zero_add]
  refine ⟨main c rfl hserve, hsucc.2, hsucc.1, ?_⟩
  intro g hg
  rw [main c rfl hserve]
  apply main { c with getBuildRun := g } rfl
  apply serves_congr c g _ buildRun 0 _ hserve
  intro j _ hj
  apply hg j
  simp only [List.length_append, List.length_singleton] at hj
  omega

/-- Witness of C7: the statuses unknown, unknown, true with completion, for
an execution that waits the default 10 minutes. -/
theorem waitForBuildRunCompletion_succeeds_witness :
    waitForBuildRunCompletion (clusterOfStatuses [unknownRun, unknownRun, doneRun])
        (createdRun none) =
      { buildRun := some doneRun, err := none, polls := 3, elapsed := 2 * pollInterval } :=
  (waitForBuildRunCompletion_succeeds (clusterOfStatuses [unknownRun, unknownRun, doneRun])
    (createdRun none) [unknownRun, unknownRun] doneRun
    ⟨rfl, rfl, rfl, trivial⟩ (by decide) (by decide) (Or.inr (by decide))).1

/-- C8: when the cluster serves the statuses `sts`, none of them terminal,
and they cover every poll the waiter makes (the first one and those due
before the timeout of `lookUpTimeout` elapses), `waitForBuildRunCompletion`
returns no execution and the wrapped deadline error; the time elapsed is not
less than the timeout, the next poll was due at or after it, and the error is
not the one a condition of status false gives, whatever its message. -/
theorem waitForBuildRunCompletion_times_out (c : Cluster) (buildRun : BuildRun)
    (sts : List BuildRun)
    (hserve : Serves c buildRun 0 sts)
    (hpending : ∀ x ∈ sts, ¬ IsSucceeded x ∧ ¬ IsFailed x)
    (hcover : ∀ k : Nat, (k = 0 ∨ (k : Int) * pollInterval < lookUpTimeout c buildRun) →
      k < sts.length) :
    (waitForBuildRunCompletion c buildRun).buildRun = none ∧
    (waitForBuildRunCompletion c buildRun).err =
      some (Error.wrap "waiting for build-run to finish failed: " Error.deadlineExceeded) ∧
    lookUpTimeout c buildRun ≤ (waitForBuildRunCompletion c buildRun).elapsed ∧
    lookUpTimeout c buildRun ≤
      ((waitForBuildRunCompletion c buildRun).polls : Int) * pollInterval ∧
    ∀ msg : String, (waitForBuildRunCompletion c buildRun).err ≠
      some (Error.wrap "waiting for build-run to finish failed: " (Errorf0 msg)) := by
  have hspec := ticksBeforeDeadline_spec (lookUpTimeout c buildRun)
  have hlen := hcover _ hspec.1
  obtain ⟨last, hloop⟩ := pollLoop_times_out c pollInterval (lookUpTimeout c buildRun) _ sts
    buildRun 0 hserve hpending hlen
  have hres : waitForBuildRunCompletion c buildRun =
      { buildRun := none,
        err := some (Error.wrap "waiting for build-run to finish failed: "
          Error.deadlineExceeded),
        polls := ticksBeforeDeadline pollInterval (lookUpTimeout c buildRun) + 1,
        elapsed := max (((ticksBeforeDeadline pollInterval (lookUpTimeout c buildRun) : Nat) :
          Int) * pollInterval) (lookUpTimeout c buildRun) } := by
    simp only [waitForBuildRunCompletion, PollUntilContextTimeout, hloop, Nat.zero_add]
  rw [hres]
  refine ⟨rfl, rfl, le_max_right _ _, hspec.2, ?_⟩
  intro msg h
  simp only [Errorf0, Option.some.injEq, Error.wrap.injEq, true_and] at h
  cases h

/-- Witness of C8: two statuses unknown for an execution with a timeout of 15
seconds, polled at 0 and at 10 seconds. -/
theorem waitForBuildRunCompletion_times_out_witness :
    (waitForBuildRunCompletion (clusterOfStatuses [unknownRun, unknownRun])
        (createdRun (some (15 * Second)))).err =
      some (Error.wrap "waiting for build-run to finish failed: " Error.deadlineExceeded) :=
  (waitForBuildRunCompletion_times_out (clusterOfStatuses [unknownRun, unknownRun])
    (createdRun (some (15 * Second))) [unknownRun, unknownRun]
    ⟨rfl, rfl, trivial⟩ (by decide)
    (by
      intro k hk
      have hT : lookUpTimeout (clusterOfStatuses [unknownRun, unknownRun])
          (createdRun (some (15 * Second))) = 15000000000 := by decide
      have hI : pollInterval = 10000000000 := by decide
      rw [hT, hI] at hk
      simp only [List.length_cons, List.length_nil]
      omega)).2.1

/-! ## Theorems: the Rebuild Orchestrator -/

theorem findServiceLoop_some_iff (image : String) (l : List Service) :
    (∃ s, findServiceLoop image l = some s) ↔ ∃ s ∈ l, TaggedWith image s := by
  induction l with
  | nil => simp [findServiceLoop]
  | cons x l ih =>
    unfold findServiceLoop
    cases hx : mapGet x.Annotations userImageAnnotation with
    | none =>
      simp only [ih, List.mem_cons, exists_eq_or_imp, TaggedWith, hx]
      simp
    | some userImage =>
      by_cases himg : userImage = image
      · simp [himg, TaggedWith, hx]
      · simp only [himg, if_false, ih, List.mem_cons, exists_eq_or_imp, TaggedWith, hx,
          Option.some.injEq, false_or]

theorem findService_some_iff (c : Cluster) (namespace_ image : String) (l : List Service)
    (hl : c.listServices namespace_ = .ok l) :
    (∃ s, findService c namespace_ image = .ok (some s)) ↔ ServiceExists c namespace_ image := by
  simp only [findService, hl, Except.ok.injEq, findServiceLoop_some_iff, ServiceExists,
    exists_eq_left']

theorem handleBuild_status (c : Cluster) (d : Build) (l : List Service)
    (hl : c.listServices d.Namespace = .ok l) :
    ((handleBuild c d).status = StatusAccepted ↔
      ServiceExists c d.Namespace d.Spec.Output.Image) ∧
    ((handleBuild c d).status = StatusAccepted ∨ (handleBuild c d).status = StatusNotFound) := by
  have hiff := findService_some_iff c d.Namespace d.Spec.Output.Image l hl
  unfold handleBuild
  cases hf : findService c d.Namespace d.Spec.Output.Image with
  | error e => simp [findService, hl] at hf
  | ok r =>
    cases r with
    | none =>
      rw [hf] at hiff
      simp only [← hiff]
      simp [StatusAccepted, StatusNotFound]
    | some svc =>
      rw [hf] at hiff
      simp only [← hiff]
      simp

theorem handleBuildRun_status (c : Cluster) (r : BuildRun) (spec : BuildSpec)
    (l : List Service) (hspec : r.Spec.Build.Spec = some spec)
    (hl : c.listServices r.Namespace = .ok l) :
    ∃ resp, handleBuildRun c r = some resp ∧
      (resp.status = StatusAccepted ↔ ServiceExists c r.Namespace spec.Output.Image) ∧
      (resp.status = StatusAccepted ∨ resp.status = StatusNotFound) := by
  have hiff := findService_some_iff c r.Namespace spec.Output.Image l hl
  unfold handleBuildRun
  simp only [hspec]
  cases hf : findService c r.Namespace spec.Output.Image with
  | error e => simp [findService, hl] at hf
  | ok res =>
    cases res with
    | none =>
      rw [hf] at hiff
      simp only [← hiff]
      simp [StatusAccepted, StatusNotFound]
    | some svc =>
      rw [hf] at hiff
      simp only [← hiff]
      simp

theorem findBuildRunLoop_embedded (repo : String) (E : List BuildRun) (r : BuildRun)
    (h : findBuildRunLoop repo E none = some r) :
    ∃ spec, r.Spec.Build.Spec = some spec := by
  rcases findBuildRunLoop_origin repo E none with h1 | ⟨e, _, _, ⟨spec, _, _, hs, _⟩, h2⟩
  · rw [h] at h1
    cases h1
  · rw [h] at h2
    cases h2
    exact ⟨spec, hs⟩

/-- C9: when the client setup succeeds and `findBuild` returns a definition,
`handleRepo` returns what `handleBuild` returns on that definition; replacing
the listing of build executions by any other leaves that result, and what the
started goroutine does, unchanged. -/
theorem handleRepo_definition_first (c : Cluster) (repo namespace_ : String) (build : Build)
    (hsetup : c.inClusterSetup = .ok namespace_)
    (hfind : findBuild c namespace_ repo = .ok (some build)) :
    handleRepo c repo = some (handleBuild c build) ∧
    ∀ runs : String → Except Error (List BuildRun),
      handleRepo { c with listBuildRuns := runs } repo = handleRepo c repo ∧
      ∀ task, (handleBuild c build).task = some task →
        runTask { c with listBuildRuns := runs } task = runTask c task := by
  have key : ∀ c1 : Cluster, c1.inClusterSetup = .ok namespace_ →
      findBuild c1 namespace_ repo = .ok (some build) →
      handleRepo c1 repo = some (handleBuild c1 build) := by
    intro c1 hs hf
    simp only [handleRepo, hs, hf]
  have h1 := key c hsetup hfind
  refine ⟨h1, fun runs => ⟨?_, ?_⟩⟩
  · rw [h1, key { c with listBuildRuns := runs } hsetup hfind]
    rfl
  · intro task _
    cases task with
    | ofBuild b svc => rfl
    | ofBuildRun r svc => rfl

/-- Witness of C9: scenario 1 with a matching execution besides the
definition; the definition is handled. -/
theorem handleRepo_definition_first_witness :
    handleRepo (clusterOf [gitBuild "app" "https://example.com/org/app" "registry/app:latest"]
        [gitRun "old" "https://example.com/org/app" "registry/app:v2" (some 1)]
        [taggedService "registry/app:latest"]) "https://example.com/org/app" =
      some (handleBuild (clusterOf [gitBuild "app" "https://example.com/org/app" "registry/app:latest"]
        [gitRun "old" "https://example.com/org/app" "registry/app:v2" (some 1)]
        [taggedService "registry/app:latest"])
        (gitBuild "app" "https://example.com/org/app" "registry/app:latest")) :=
  (handleRepo_definition_first
    (clusterOf [gitBuild "app" "https://example.com/org/app" "registry/app:latest"]
        [gitRun "old" "https://example.com/org/app" "registry/app:v2" (some 1)]
        [taggedService "registry/app:latest"])
    "https://example.com/org/app" "ns"
    (gitBuild "app" "https://example.com/org/app" "registry/app:latest") rfl rfl).1

theorem findBuildLoop_first_iff (repo : String) (D : List Build) (d : Build) :
    findBuildLoop repo D = some d ↔ FirstReferencing repo D d := by
  constructor
  · intro h
    induction D with
    | nil => simp [findBuildLoop] at h
    | cons x D ih =>
      by_cases hx : findBuildMatch repo x = true
      · simp only [findBuildLoop, hx, if_true, Option.some.injEq] at h
        subst h
        exact ⟨[], D, rfl, (findBuildMatch_iff repo x).mp hx, by simp⟩
      · simp only [findBuildLoop, hx, Bool.false_eq_true, if_false] at h
        obtain ⟨pre, post, hsplit, hd, hpre⟩ := ih h
        refine ⟨x :: pre, post, by rw [hsplit]; rfl, hd, ?_⟩
        intro y hy
        rcases List.mem_cons.mp hy with hy | hy
        · rw [hy]
          exact fun hr => hx ((findBuildMatch_iff repo x).mpr hr)
        · exact hpre y hy
  · rintro ⟨pre, post, hsplit, hd, hpre⟩
    subst hsplit
    induction pre with
    | nil =>
      simp only [List.nil_append, findBuildLoop, (findBuildMatch_iff repo d).mpr hd, if_true]
    | cons x pre ih =>
      have hx : ¬ findBuildMatch repo x = true :=
        fun h => hpre x (List.mem_cons_self _ _) ((findBuildMatch_iff repo x).mp h)
      simp only [List.cons_append, findBuildLoop, hx, Bool.false_eq_true, if_false]
      exact ih (fun y hy => hpre y (List.mem_cons_of_mem _ hy))

theorem findBuildLoop_none_iff (repo : String) (D : List Build) :
    findBuildLoop repo D = none ↔ ∀ d ∈ D, ¬ BuildReferences repo d := by
  constructor
  · intro h d hd hr
    obtain ⟨b, hb⟩ := (findBuildLoop_some_iff repo D).mpr
      ⟨d, hd, (findBuildMatch_iff repo d).mpr hr⟩
    rw [h] at hb
    cases hb
  · intro h
    cases hf : findBuildLoop repo D with
    | none => rfl
    | some b =>
      have hb := findBuildLoop_mem hf
      exact absurd ((findBuildMatch_iff repo b).mp hb.2) (h b hb.1)

theorem findBuildRunLoop_latest_iff (repo : String) (E : List BuildRun) (r : BuildRun) :
    findBuildRunLoop repo E none = some r ↔ LatestReferencing repo E r := by
  constructor
  · intro h
    have hex : ∃ e ∈ E, (∃ t, CompletedAt e t) ∧ RunReferences repo e := by
      rcases findBuildRunLoop_origin repo E none with h1 | ⟨e, he, hc, hr, _⟩
      · rw [h] at h1
        cases h1
      · exact ⟨e, he, hc, hr⟩
    obtain ⟨pre, c0, post, hsplit, ⟨⟨t0, h0⟩, hr⟩, hpre, hpost⟩ :=
      exists_first_max (fun e => (∃ t, CompletedAt e t) ∧ RunReferences repo e)
        (fun e => e.Status.CompletionTime.getD 0) E hex
    have key0 : c0.Status.CompletionTime.getD 0 = t0 := by
      unfold CompletedAt at h0
      simp [h0]
    have hpre1 : ∀ x ∈ pre, RunReferences repo x → ∀ t, CompletedAt x t → t < t0 := by
      intro x hx hxr t ht
      have := hpre x hx ⟨⟨t, ht⟩, hxr⟩
      unfold CompletedAt at ht
      simp only [ht, Option.getD_some, key0] at this
      exact this
    have hpost1 : ∀ x ∈ post, RunReferences repo x → ∀ t, CompletedAt x t → t ≤ t0 := by
      intro x hx hxr t ht
      have := hpost x hx ⟨⟨t, ht⟩, hxr⟩
      unfold CompletedAt at ht
      simp only [ht, Option.getD_some, key0] at this
      exact this
    have hloop := findBuildRunLoop_first_latest repo pre post c0 t0 h0 hr hpre1 hpost1
    rw [← hsplit, h] at hloop
    cases hloop
    exact ⟨pre, post, t0, hsplit, h0, hr, hpre1, hpost1⟩
  · rintro ⟨pre, post, t, hsplit, h0, hr, hpre, hpost⟩
    rw [hsplit]
    exact findBuildRunLoop_first_latest repo pre post r t h0 hr hpre hpost

/-- C10, as amended: when the client setup, the listings `D` of definitions
and `E` of executions and the listings of services succeed, `handleRepo`
returns a response; its status is 202 if and only if the first listed
definition that references the repository has a service tagged with its output
image, or no listed definition references the repository and the
latest-completed execution that references it (the first listed of those with
the latest instant) has a service tagged with the output image of its embedded
spec; otherwise its status is 404. -/
theorem handleRepo_status (c : Cluster) (repo namespace_ : String) (D : List Build)
    (E : List BuildRun)
    (hsetup : c.inClusterSetup = .ok namespace_)
    (hD : c.listBuilds namespace_ = .ok D)
    (hE : c.listBuildRuns namespace_ = .ok E)
    (hservices : ∀ n, ∃ l, c.listServices n = .ok l) :
    ∃ resp, handleRepo c repo = some resp ∧
      (resp.status = 202 ↔ Accepted c repo D E) ∧
      (¬ Accepted c repo D E → resp.status = 404) := by
  have hfb : findBuild c namespace_ repo = .ok (findBuildLoop repo D) := by
    simp only [findBuild, hD]
  have hfr : findBuildRun c namespace_ repo = .ok (findBuildRunLoop repo E none) := by
    simp only [findBuildRun, hE]
  cases hb : findBuildLoop repo D with
  | some d =>
    rw [hb] at hfb
    obtain ⟨S, hS⟩ := hservices d.Namespace
    obtain ⟨hiff, hor⟩ := handleBuild_status c d S hS
    have hacc : Accepted c repo D E ↔ ServiceExists c d.Namespace d.Spec.Output.Image := by
      unfold Accepted
      constructor
      · rintro (⟨d1, hd1, hs1⟩ | ⟨hno, _⟩)
        · have h1 := (findBuildLoop_first_iff repo D d1).mpr hd1
          rw [hb] at h1
          cases h1
          exact hs1
        · have h1 := (findBuildLoop_none_iff repo D).mpr hno
          rw [hb] at h1
          cases h1
      · intro hs
        exact Or.inl ⟨d, (findBuildLoop_first_iff repo D d).mp hb, hs⟩
    refine ⟨handleBuild c d, by simp only [handleRepo, hsetup, hfb], ?_, ?_⟩
    · rw [hacc]
      exact hiff
    · intro hna
      rw [hacc, ← hiff] at hna
      rcases hor with h | h
      · exact absurd h hna
      · exact h
  | none =>
    rw [hb] at hfb
    have hnoD : ∀ d ∈ D, ¬ BuildReferences repo d := (findBuildLoop_none_iff repo D).mp hb
    have hfirst : ∀ d, ¬ FirstReferencing repo D d := by
      intro d hd
      have h1 := (findBuildLoop_first_iff repo D d).mpr hd
      rw [hb] at h1
      cases h1
    cases hr : findBuildRunLoop repo E none with
    | none =>
      rw [hr] at hfr
      have hacc : ¬ Accepted c repo D E := by
        unfold Accepted
        rintro (⟨d1, hd1, _⟩ | ⟨_, r1, _, hr1, _⟩)
        · exact hfirst d1 hd1
        · have h1 := (findBuildRunLoop_latest_iff repo E r1).mpr hr1
          rw [hr] at h1
          cases h1
      refine ⟨{ status := StatusNotFound, wgAdd := 0, task := none },
        by simp only [handleRepo, hsetup, hfb, hfr], ?_, ?_⟩
      · simp only [hacc, iff_false]
        decide
      · intro _
        rfl
    | some r =>
      rw [hr] at hfr
      obtain ⟨spec, hspec⟩ := findBuildRunLoop_embedded repo E r hr
      obtain ⟨S, hS⟩ := hservices r.Namespace
      obtain ⟨resp, hresp, hiff, hor⟩ := handleBuildRun_status c r spec S hspec hS
      have hacc : Accepted c repo D E ↔ ServiceExists c r.Namespace spec.Output.Image := by
        unfold Accepted
        constructor
        · rintro (⟨d1, hd1, _⟩ | ⟨_, r1, spec1, hr1, h2, h3⟩)
          · exact absurd hd1 (hfirst d1)
          · have h1 := (findBuildRunLoop_latest_iff repo E r1).mpr hr1
            rw [hr] at h1
            cases h1
            rw [hspec] at h2
            cases h2
            exact h3
        · intro h
          exact Or.inr ⟨hnoD, r, spec, (findBuildRunLoop_latest_iff repo E r).mp hr, hspec, h⟩
      refine ⟨resp, by simp only [handleRepo, hsetup, hfb, hfr, hresp], ?_, ?_⟩
      · rw [hacc]
        exact hiff
      · intro hna
        rw [hacc, ← hiff] at hna
        rcases hor with h | h
        · exact absurd h hna
        · exact h

/-- Witness of C10: scenario 3, no definition, a completed execution that
references the repository and a service tagged with the output image of its
embedded spec. -/
theorem handleRepo_status_witness :
    ∃ resp, handleRepo (clusterOf []
        [gitRun "old" "https://example.com/org/app" "registry/app:v2" (some 1)]
        [taggedService "registry/app:v2"]) "https://example.com/org/app" = some resp ∧
      (resp.status = 202 ↔ Accepted (clusterOf []
        [gitRun "old" "https://example.com/org/app" "registry/app:v2" (some 1)]
        [taggedService "registry/app:v2"]) "https://example.com/org/app" []
        [gitRun "old" "https://example.com/org/app" "registry/app:v2" (some 1)]) ∧
      (¬ Accepted (clusterOf []
        [gitRun "old" "https://example.com/org/app" "registry/app:v2" (some 1)]
        [taggedService "registry/app:v2"]) "https://example.com/org/app" []
        [gitRun "old" "https://example.com/org/app" "registry/app:v2" (some 1)] →
        resp.status = 404) :=
  handleRepo_status (clusterOf []
      [gitRun "old" "https://example.com/org/app" "registry/app:v2" (some 1)]
      [taggedService "registry/app:v2"]) "https://example.com/org/app" "ns" []
    [gitRun "old" "https://example.com/org/app" "registry/app:v2" (some 1)] rfl rfl rfl
    (fun _ => ⟨_, rfl⟩)

/-- Counterexample to C10 as written: two listed definitions reference the
repository, the first with output image `registry/a`, the second with
`registry/b`, and the only service is tagged `registry/b`.  A definition
matches and a service tagged with its output image exists, yet `handleRepo`
handles the first definition and returns 404. -/
theorem handleRepo_second_match_counterexample :
    handleRepo (clusterOf [gitBuild "first" "https://example.com/org/app" "registry/a",
        gitBuild "second" "https://example.com/org/app" "registry/b"] []
        [taggedService "registry/b"]) "https://example.com/org/app" =
      some { status := 404, wgAdd := 0, task := none } ∧
    ¬ ((∃ resp, handleRepo (clusterOf [gitBuild "first" "https://example.com/org/app" "registry/a",
          gitBuild "second" "https://example.com/org/app" "registry/b"] []
          [taggedService "registry/b"]) "https://example.com/org/app" = some resp ∧
          resp.status = 202) ↔
      AcceptedAsWritten (clusterOf [gitBuild "first" "https://example.com/org/app" "registry/a",
          gitBuild "second" "https://example.com/org/app" "registry/b"] []
          [taggedService "registry/b"]) "https://example.com/org/app"
        [gitBuild "first" "https://example.com/org/app" "registry/a",
          gitBuild "second" "https://example.com/org/app" "registry/b"] []) := by
  have h404 : handleRepo (clusterOf [gitBuild "first" "https://example.com/org/app" "registry/a",
        gitBuild "second" "https://example.com/org/app" "registry/b"] []
        [taggedService "registry/b"]) "https://example.com/org/app" =
      some { status := 404, wgAdd := 0, task := none } := by decide
  refine ⟨h404, fun h => ?_⟩
  have hw : AcceptedAsWritten (clusterOf [gitBuild "first" "https://example.com/org/app" "registry/a",
        gitBuild "second" "https://example.com/org/app" "registry/b"] []
        [taggedService "registry/b"]) "https://example.com/org/app"
      [gitBuild "first" "https://example.com/org/app" "registry/a",
        gitBuild "second" "https://example.com/org/app" "registry/b"] [] := by
    refine Or.inl ⟨gitBuild "second" "https://example.com/org/app" "registry/b", by simp, ?_, ?_⟩
    · exact ⟨⟨GitType, some ⟨"https://example.com/org/app"⟩⟩, ⟨"https://example.com/org/app"⟩,
        rfl, rfl, rfl, [], [], by decide⟩
    · exact ⟨[taggedService "registry/b"], rfl, taggedService "registry/b", by simp,
        by unfold TaggedWith; decide⟩
  obtain ⟨resp, hr, hs⟩ := h.mpr hw
  rw [h404] at hr
  cases hr
  revert hs
  decide

/-! ## Theorems: no dependent service -/

theorem findServiceLoop_none (image : String) (l : List Service)
    (h : ∀ s ∈ l, ¬ TaggedWith image s) : findServiceLoop image l = none := by
  cases hf : findServiceLoop image l with
  | none => rfl
  | some s =>
    obtain ⟨x, hx, hxt⟩ := (findServiceLoop_some_iff image l).mp ⟨s, hf⟩
    exact absurd hxt (h x hx)

/-- C11: when the listing of services succeeds and no listed service carries
the image annotation with the output image, `handleBuild` on a matched
definition and `handleBuildRun` on a matched execution return 404, add nothing
to the wait group and start no goroutine, so that nothing is created or
updated; and `handleRepo` returns that same response for the request. -/
theorem no_service_not_found (c : Cluster) (repo namespace_ : String)
    (hsetup : c.inClusterSetup = .ok namespace_) :
    (∀ build l, c.listServices build.Namespace = .ok l →
      (∀ s ∈ l, ¬ TaggedWith build.Spec.Output.Image s) →
      handleBuild c build = { status := 404, wgAdd := 0, task := none } ∧
      (findBuild c namespace_ repo = .ok (some build) →
        handleRepo c repo = some { status := 404, wgAdd := 0, task := none })) ∧
    (∀ buildRun spec l, buildRun.Spec.Build.Spec = some spec →
      c.listServices buildRun.Namespace = .ok l →
      (∀ s ∈ l, ¬ TaggedWith spec.Output.Image s) →
      handleBuildRun c buildRun = some { status := 404, wgAdd := 0, task := none } ∧
      (findBuild c namespace_ repo = .ok none →
        findBuildRun c namespace_ repo = .ok (some buildRun) →
        handleRepo c repo = some { status := 404, wgAdd := 0, task := none })) := by
  constructor
  · intro build l hl hno
    have hb : handleBuild c build = { status := 404, wgAdd := 0, task := none } := by
      simp only [handleBuild, findService, hl, findServiceLoop_none _ l hno]
      rfl
    refine ⟨hb, fun hfind => ?_⟩
    simp only [handleRepo, hsetup, hfind, hb]
  · intro buildRun spec l hspec hl hno
    have hb : handleBuildRun c buildRun =
        some { status := 404, wgAdd := 0, task := none } := by
      simp only [handleBuildRun, hspec, findService, hl, findServiceLoop_none _ l hno]
      rfl
    refine ⟨hb, fun hfind hrun => ?_⟩
    simp only [handleRepo, hsetup, hfind, hrun, hb]

/-- Witness of C11: scenario 2, the definition of scenario 1 and a service
tagged with another image. -/
theorem no_service_not_found_witness :
    handleRepo (clusterOf [gitBuild "app" "https://example.com/org/app" "registry/app:latest"]
        [] [taggedService "registry/other:latest"]) "https://example.com/org/app" =
      some { status := 404, wgAdd := 0, task := none } :=
  ((no_service_not_found
    (clusterOf [gitBuild "app" "https://example.com/org/app" "registry/app:latest"]
        [] [taggedService "registry/other:latest"]) "https://example.com/org/app" "ns" rfl).1
    (gitBuild "app" "https://example.com/org/app" "registry/app:latest")
    [taggedService "registry/other:latest"] rfl (by unfold TaggedWith; decide)).2 rfl

/-! ## Theorems: the goroutine -/

theorem createWaitNudge_updated (c : Cluster) (namespace_ : String) (newBuildRun : BuildRun)
    (service : Service) :
    (createWaitNudge c namespace_ newBuildRun service).submitted = newBuildRun ∧
    (createWaitNudge c namespace_ newBuildRun service).wgDone = 1 ∧
    (∀ u, (createWaitNudge c namespace_ newBuildRun service).updated = some u →
      u = nudgeService c service ∧
        ∃ created, c.createBuildRun namespace_ newBuildRun = .ok created ∧
          (waitForBuildRunCompletion c created).err = none) ∧
    (∀ created, c.createBuildRun namespace_ newBuildRun = .ok created →
      (waitForBuildRunCompletion c created).err = none →
      (createWaitNudge c namespace_ newBuildRun service).updated =
        some (nudgeService c service)) ∧
    (∀ e, c.createBuildRun namespace_ newBuildRun = .error e →
      (createWaitNudge c namespace_ newBuildRun service).updated = none ∧
        (createWaitNudge c namespace_ newBuildRun service).created = none) ∧
    (∀ created e, c.createBuildRun namespace_ newBuildRun = .ok created →
      (waitForBuildRunCompletion c created).err = some e →
      (createWaitNudge c namespace_ newBuildRun service).updated = none) := by
  unfold createWaitNudge
  cases hc : c.createBuildRun namespace_ newBuildRun with
  | error e => simp
  | ok created =>
    cases hw : (waitForBuildRunCompletion c created).err with
    | none =>
      simp only [hw]
      refine ⟨trivial, trivial, ?_, ?_, ?_, ?_⟩
      · intro u hu
        simp only [Option.some.injEq] at hu
        exact ⟨hu.symm, created, rfl, hw⟩
      · intro cr _ _
        trivial
      · intro e he
        cases he
      · intro cr e hcr hwe
        simp only [Except.ok.injEq] at hcr
        subst hcr
        rw [hw] at hwe
        cases hwe
    | some e =>
      simp only [hw]
      refine ⟨trivial, trivial, ?_, ?_, ?_, ?_⟩
      · intro u hu
        cases hu
      · intro cr hcr hwe
        simp only [Except.ok.injEq] at hcr
        subst hcr
        rw [hw] at hwe
        cases hwe
      · intro e1 he
        cases he
      · intro cr e1 _ _
        trivial

/-- C12: the goroutine of `handleBuild` and of `handleBuildRun` hands a
service to `Update` only when the creation of the new execution succeeded and
`waitForBuildRunCompletion` on the created execution returned no error, and
then it is the nudged service; when the creation fails, or the wait returns an
error (a timeout or a failed execution), no service is updated. -/
theorem runTask_nudges_only_on_success (c : Cluster) (task : Task) :
    (∀ u, (runTask c task).updated = some u →
      u = nudgeService c task.service ∧
      ∃ created, c.createBuildRun (runTask c task).submitted.Namespace
          (runTask c task).submitted = .ok created ∧
        (waitForBuildRunCompletion c created).err = none) ∧
    (∀ created, c.createBuildRun (runTask c task).submitted.Namespace
        (runTask c task).submitted = .ok created →
      (waitForBuildRunCompletion c created).err = none →
      ∃ u, (runTask c task).updated = some u) ∧
    (∀ e, c.createBuildRun (runTask c task).submitted.Namespace
        (runTask c task).submitted = .error e → (runTask c task).updated = none) ∧
    (∀ created e, c.createBuildRun (runTask c task).submitted.Namespace
        (runTask c task).submitted = .ok created →
      (waitForBuildRunCompletion c created).err = some e →
      (runTask c task).updated = none) := by
  cases task with
  | ofBuild build service =>
    obtain ⟨h0, _, h1, h2, h3, h4⟩ := createWaitNudge_updated c build.Namespace
      { Name := "", GenerateName := "rebuild-" ++ build.Name ++ "-",
        Namespace := build.Namespace,
        Spec := { Build := { Spec := none, Name := some build.Name }, Timeout := none },
        Status := { Conditions := [], CompletionTime := none } } service
    simp only [runTask, h0]
    exact ⟨fun u hu => h1 u hu, fun cr hc hw => ⟨_, h2 cr hc hw⟩,
      fun e he => (h3 e he).1, h4⟩
  | ofBuildRun buildRun service =>
    obtain ⟨h0, _, h1, h2, h3, h4⟩ := createWaitNudge_updated c buildRun.Namespace
      { Name := "rebuild-build-run-" ++ c.nowCompact, GenerateName := "",
        Namespace := buildRun.Namespace,
        Spec := buildRun.Spec,
        Status := { Conditions := [], CompletionTime := none } } service
    simp only [runTask, h0]
    exact ⟨fun u hu => h1 u hu, fun cr hc hw => ⟨_, h2 cr hc hw⟩,
      fun e he => (h3 e he).1, h4⟩

/-- Witness of C12: on a cluster where nothing can be created the goroutine
of scenario 1 updates no service. -/
theorem runTask_nudges_only_on_success_witness :
    (runTask emptyCluster
      (Task.ofBuild (gitBuild "app" "https://example.com/org/app" "registry/app:latest")
        (taggedService "registry/app:latest"))).updated = none :=
  (runTask_nudges_only_on_success emptyCluster
    (Task.ofBuild (gitBuild "app" "https://example.com/org/app" "registry/app:latest")
      (taggedService "registry/app:latest"))).2.2.1 (Error.api "forbidden") rfl

/-! ## Theorems: the Service Locator -/

theorem findServiceLoop_first (image : String) (pre post : List Service) (s : Service)
    (hs : TaggedWith image s) (hpre : ∀ x ∈ pre, ¬ TaggedWith image x) :
    findServiceLoop image (pre ++ s :: post) = some s := by
  induction pre with
  | nil =>
    unfold TaggedWith at hs
    simp only [List.nil_append, findServiceLoop, hs, if_true]
  | cons x pre ih =>
    have hx : ¬ TaggedWith image x := hpre x (List.mem_cons_self _ _)
    have ih1 := ih (fun y hy => hpre y (List.mem_cons_of_mem _ hy))
    unfold TaggedWith at hx
    simp only [List.cons_append, findServiceLoop]
    cases hm : mapGet x.Annotations userImageAnnotation with
    | none => exact ih1
    | some userImage =>
      have hne : ¬ userImage = image := by
        intro h
        apply hx
        rw [hm, h]
      simp only [hne, if_false]
      exact ih1

theorem findServiceLoop_mem (image : String) (l : List Service) (s : Service)
    (h : findServiceLoop image l = some s) : s ∈ l ∧ TaggedWith image s := by
  induction l with
  | nil => simp [findServiceLoop] at h
  | cons x l ih =>
    unfold findServiceLoop at h
    cases hm : mapGet x.Annotations userImageAnnotation with
    | none =>
      simp only [hm] at h
      exact ⟨List.mem_cons_of_mem _ (ih h).1, (ih h).2⟩
    | some userImage =>
      simp only [hm] at h
      by_cases himg : userImage = image
      · simp only [himg, if_true, Option.some.injEq] at h
        subst h
        refine ⟨List.mem_cons_self _ _, ?_⟩
        unfold TaggedWith
        rw [hm, himg]
      · simp only [himg, if_false] at h
        exact ⟨List.mem_cons_of_mem _ (ih h).1, (ih h).2⟩

/-- C13: with the listing `l` of services, `findService` returns the service
`s` whenever `s` is listed with the annotation `client.knative.dev/user-image`
present and equal to the image and no service listed before it has an equal
annotation; it returns none, without error, when no listed service has an
equal annotation; and what it returns is a listed service whose annotation is
that very string. -/
theorem findService_first_equal (c : Cluster) (namespace_ image : String) (l : List Service)
    (hl : c.listServices namespace_ = .ok l) :
    (∀ pre s post, l = pre ++ s :: post →
      mapGet s.Annotations "client.knative.dev/user-image" = some image →
      (∀ x ∈ pre, mapGet x.Annotations "client.knative.dev/user-image" ≠ some image) →
      findService c namespace_ image = .ok (some s)) ∧
    ((∀ x ∈ l, mapGet x.Annotations "client.knative.dev/user-image" ≠ some image) →
      findService c namespace_ image = .ok none) ∧
    (∀ s, findService c namespace_ image = .ok (some s) →
      s ∈ l ∧ mapGet s.Annotations "client.knative.dev/user-image" = some image) := by
  refine ⟨?_, ?_, ?_⟩
  · intro pre s post hsplit hs hpre
    simp only [findService, hl, hsplit]
    rw [findServiceLoop_first image pre post s hs hpre]
  · intro hno
    simp only [findService, hl]
    rw [findServiceLoop_none image l hno]
  · intro s hs
    simp only [findService, hl, Except.ok.injEq] at hs
    exact findServiceLoop_mem image l s hs

/-- Witness of C13: the image `registry/app` is a substring of the annotation
of the first service and equal to the annotation of the second; the second is
returned. -/
theorem findService_first_equal_witness :
    findService (clusterOf [] []
        [taggedService "registry/app:latest", taggedService "registry/app",
          taggedService "registry/app"]) "ns" "registry/app" =
      .ok (some (taggedService "registry/app")) :=
  (findService_first_equal (clusterOf [] []
      [taggedService "registry/app:latest", taggedService "registry/app",
        taggedService "registry/app"]) "ns" "registry/app"
    [taggedService "registry/app:latest", taggedService "registry/app",
      taggedService "registry/app"] rfl).1
    [taggedService "registry/app:latest"] (taggedService "registry/app")
    [taggedService "registry/app"] rfl (by decide) (by decide)

/-! ## Theorems: the Revision Nudger -/

theorem mapGet_mapSet_self (m : List (String × String)) (key value : String) :
    mapGet (mapSet m key value) key = some value := by
  induction m with
  | nil => simp [mapSet, mapGet, List.lookup]
  | cons kv m ih =>
    obtain ⟨k, v⟩ := kv
    by_cases hk : k = key
    · simp [mapSet, hk, mapGet, List.lookup]
    · have hk1 : (key == k) = false := by
        simp only [beq_eq_false_iff_ne, ne_eq]
        exact fun h => hk h.symm
      simp only [mapSet, hk, if_false, mapGet, List.lookup, hk1]
      exact ih

theorem mapGet_mapSet_other (m : List (String × String)) (key value k1 : String)
    (h : k1 ≠ key) : mapGet (mapSet m key value) k1 = mapGet m k1 := by
  induction m with
  | nil =>
    have h1 : (k1 == key) = false := by
      simp only [beq_eq_false_iff_ne, ne_eq]
      exact h
    simp [mapSet, mapGet, List.lookup, h1]
  | cons kv m ih =>
    obtain ⟨k, v⟩ := kv
    by_cases hk : k = key
    · have h1 : (k1 == key) = false := by
        simp only [beq_eq_false_iff_ne, ne_eq]
        exact h
      have h2 : (k1 == k) = false := by
        rw [hk]
        exact h1
      simp only [mapSet, hk, if_true, mapGet, List.lookup, h1]
    · simp only [mapSet, hk, if_false, mapGet, List.lookup]
      cases hb : (k1 == k) with
      | true => rfl
      | false => exact ih

/-- C14: the service `nudgeService` hands to `Update` has a template
annotation set in which the key `client.knative.dev/updateTimestamp` holds the
timestamp of the clock (`time.Now().UTC().Format(time.RFC3339)`) and every
other key holds what it held in the previous set, the empty set when it was
missing; the name, the namespace and the annotations of the service are
unchanged. -/
theorem nudgeService_frame (c : Cluster) (service : Service) :
    ∃ m, nudgeService c service = { service with TemplateAnnotations := some m } ∧
      mapGet m "client.knative.dev/updateTimestamp" = some c.nowRFC3339 ∧
      (∀ k, k ≠ "client.knative.dev/updateTimestamp" →
        mapGet m k = mapGet (service.TemplateAnnotations.getD []) k) ∧
      (nudgeService c service).Name = service.Name ∧
      (nudgeService c service).Namespace = service.Namespace ∧
      (nudgeService c service).Annotations = service.Annotations := by
  cases ht : service.TemplateAnnotations with
  | none =>
    refine ⟨mapSet [] updateTimestampAnnotationKey c.nowRFC3339, ?_, ?_, ?_, rfl, rfl, rfl⟩
    · simp only [nudgeService, ht]
    · exact mapGet_mapSet_self _ _ _
    · intro k hk
      exact mapGet_mapSet_other _ _ _ k hk
  | some old =>
    refine ⟨mapSet old updateTimestampAnnotationKey c.nowRFC3339, ?_, ?_, ?_, rfl, rfl, rfl⟩
    · simp only [nudgeService, ht]
    · exact mapGet_mapSet_self _ _ _
    · intro k hk
      exact mapGet_mapSet_other _ _ _ k hk

/-! ## Theorems: the clone of a standalone execution -/

theorem runTask_clone (c : Cluster) (buildRun : BuildRun) (service : Service) :
    (runTask c (Task.ofBuildRun buildRun service)).submitted.Spec = buildRun.Spec ∧
    (runTask c (Task.ofBuildRun buildRun service)).submitted.Namespace = buildRun.Namespace ∧
    (runTask c (Task.ofBuildRun buildRun service)).submitted.Name =
      "rebuild-build-run-" ++ c.nowCompact := by
  have h := (createWaitNudge_updated c buildRun.Namespace
    { Name := "rebuild-build-run-" ++ c.nowCompact, GenerateName := "",
      Namespace := buildRun.Namespace,
      Spec := buildRun.Spec,
      Status := { Conditions := [], CompletionTime := none } } service).1
  simp only [runTask, h, and_self]

/-- C15, on the code: the matched execution is named
`rebuild-build-run-20240101000000` and the clock of the request reads
`20240101000000`; the request is accepted, and the execution its goroutine
hands to `Create` has the spec and the namespace of the matched execution and
also its name, not a new one. -/
theorem runTask_clone_same_name :
    handleRepo (clusterOf []
        [gitRun "rebuild-build-run-20240101000000" "https://example.com/org/app"
          "registry/app:v2" (some 1)]
        [taggedService "registry/app:v2"]) "https://example.com/org/app" =
      some { status := 202, wgAdd := 1,
             task := some (Task.ofBuildRun
               (gitRun "rebuild-build-run-20240101000000" "https://example.com/org/app"
                 "registry/app:v2" (some 1))
               (taggedService "registry/app:v2")) } ∧
    (runTask (clusterOf []
        [gitRun "rebuild-build-run-20240101000000" "https://example.com/org/app"
          "registry/app:v2" (some 1)]
        [taggedService "registry/app:v2"])
      (Task.ofBuildRun
        (gitRun "rebuild-build-run-20240101000000" "https://example.com/org/app"
          "registry/app:v2" (some 1))
        (taggedService "registry/app:v2"))).submitted.Name =
      (gitRun "rebuild-build-run-20240101000000" "https://example.com/org/app"
        "registry/app:v2" (some 1)).Name := by
  constructor
  · decide
  · rw [(runTask_clone _ _ _).2.2]
    decide

/-! ## Theorems: unfinished executions -/

theorem findBuildRunLoop_filter (repo : String) (E : List BuildRun) :
    ∀ cand, findBuildRunLoop repo
        (E.filter (fun e => e.Status.CompletionTime.isSome)) cand =
      findBuildRunLoop repo E cand := by
  induction E with
  | nil =>
    intro cand
    rfl
  | cons e E ih =>
    intro cand
    cases hc : e.Status.CompletionTime with
    | none =>
      have hskip : findBuildRunStep repo cand e = cand := by
        apply findBuildRunStep_skip
        rintro ⟨⟨t, ht⟩, _⟩
        unfold CompletedAt at ht
        rw [hc] at ht
        cases ht
      simp only [List.filter, hc, Option.isSome_none, findBuildRunLoop, hskip]
      exact ih cand
    | some t =>
      simp only [List.filter, hc, Option.isSome_some, findBuildRunLoop]
      exact ih _

/-- C16: with the listing `E`, an execution returned by `findBuildRun` has
its completion instant set, and `findBuildRun` returns the same on every
cluster whose listing is `E` without its unfinished executions. -/
theorem findBuildRun_ignores_unfinished (c : Cluster) (namespace_ repo : String)
    (E : List BuildRun) (hE : c.listBuildRuns namespace_ = .ok E) :
    (∀ r, findBuildRun c namespace_ repo = .ok (some r) →
      r.Status.CompletionTime ≠ none) ∧
    ∀ c1 : Cluster,
      c1.listBuildRuns namespace_ =
        .ok (E.filter (fun e => e.Status.CompletionTime.isSome)) →
      findBuildRun c1 namespace_ repo = findBuildRun c namespace_ repo := by
  constructor
  · intro r hr
    simp only [findBuildRun, hE, Except.ok.injEq] at hr
    rcases findBuildRunLoop_origin repo E none with h | ⟨e, _, ⟨t, ht⟩, _, h⟩
    · rw [hr] at h
      cases h
    · rw [hr] at h
      cases h
      unfold CompletedAt at ht
      rw [ht]
      exact Option.some_ne_none t
  · intro c1 h1
    simp only [findBuildRun, hE, h1, findBuildRunLoop_filter]

/-- Witness of C16: an unfinished execution listed between two finished ones
changes nothing. -/
theorem findBuildRun_ignores_unfinished_witness :
    findBuildRun (clusterOfRuns
        [gitRun "old" "https://example.com/org/app" "registry/app:v2" (some 1),
          gitRun "new" "https://example.com/org/app" "registry/app:v2" (some 2)])
      "ns" "https://example.com/org/app" =
    findBuildRun (clusterOfRuns
        [gitRun "old" "https://example.com/org/app" "registry/app:v2" (some 1),
          gitRun "running" "https://example.com/org/app" "registry/app:v2" none,
          gitRun "new" "https://example.com/org/app" "registry/app:v2" (some 2)])
      "ns" "https://example.com/org/app" :=
  (findBuildRun_ignores_unfinished
    (clusterOfRuns
      [gitRun "old" "https://example.com/org/app" "registry/app:v2" (some 1),
        gitRun "running" "https://example.com/org/app" "registry/app:v2" none,
        gitRun "new" "https://example.com/org/app" "registry/app:v2" (some 2)])
    "ns" "https://example.com/org/app"
    [gitRun "old" "https://example.com/org/app" "registry/app:v2" (some 1),
      gitRun "running" "https://example.com/org/app" "registry/app:v2" none,
      gitRun "new" "https://example.com/org/app" "registry/app:v2" (some 2)] rfl).2
    (clusterOfRuns
      [gitRun "old" "https://example.com/org/app" "registry/app:v2" (some 1),
        gitRun "new" "https://example.com/org/app" "registry/app:v2" (some 2)])
    rfl

/-! ## Theorems: a parent that cannot be fetched -/

/-- C17: for an execution without a timeout of its own that names a parent
definition whose fetch fails, `lookUpTimeout` returns a duration all the same:
the timeout of the embedded spec when there is one with a timeout, and
600000000000 nanoseconds, the default of 10 minutes, otherwise. -/
theorem lookUpTimeout_fetch_failure (c : Cluster) (buildRun : BuildRun) (name : String)
    (err : Error) (h1 : buildRun.Spec.Timeout = none)
    (hn : buildRun.Spec.Build.Name = some name)
    (hg : c.getBuild buildRun.Namespace name = .error err) :
    (∀ spec T3, buildRun.Spec.Build.Spec = some spec → spec.Timeout = some T3 →
      lookUpTimeout c buildRun = T3) ∧
    ((∀ spec, buildRun.Spec.Build.Spec = some spec → spec.Timeout = none) →
      lookUpTimeout c buildRun = 600000000000) ∧
    defaultBuildRunWaitTimeout = 600000000000 := by
  refine ⟨?_, ?_, by decide⟩
  · intro spec T3 hs h3
    simp only [lookUpTimeout, h1, hn, hg, hs, h3]
  · intro hs
    cases hsp : buildRun.Spec.Build.Spec with
    | none =>
      simp only [lookUpTimeout, h1, hn, hg, hsp]
      decide
    | some spec =>
      simp only [lookUpTimeout, h1, hn, hg, hsp, hs spec hsp]
      decide

/-- Witness of C17: on a cluster where no definition can be fetched, an
execution that names a parent and embeds a spec with a timeout of 3 seconds
waits 3 seconds. -/
theorem lookUpTimeout_fetch_failure_witness :
    lookUpTimeout emptyCluster (timeoutRun none (some "app") (some (3 * Second))) =
      3 * Second :=
  (lookUpTimeout_fetch_failure emptyCluster
    (timeoutRun none (some "app") (some (3 * Second))) "app" (Error.api "not found")
    rfl rfl rfl).1 (plainSpec (some (3 * Second))) _ rfl rfl

/-! ## Theorems: a listing that fails -/

theorem findService_error (c : Cluster) (namespace_ image : String) (e : Error)
    (h : c.listServices namespace_ = .error e) :
    findService c namespace_ image = .error e := by
  simp only [findService, h]

/-- C18: when the client setup succeeds and a listing made for the request
fails (the listing of definitions; the listing of executions, made when no
definition is found; the listing of services, made for the matched definition
or execution), `handleRepo` returns 500, adds nothing to the wait group and
starts no goroutine, so that nothing is created or updated; the failed listing
is the last listing call of the request and is made once. -/
theorem listing_failure_internal_error (c : Cluster) (repo namespace_ : String)
    (hsetup : c.inClusterSetup = .ok namespace_) :
    (∀ e, c.listBuilds namespace_ = .error e →
      handleRepo c repo = some { status := 500, wgAdd := 0, task := none } ∧
      handleRepoCalls c repo = [ApiCall.listBuilds namespace_]) ∧
    (∀ e, findBuild c namespace_ repo = .ok none →
      c.listBuildRuns namespace_ = .error e →
      handleRepo c repo = some { status := 500, wgAdd := 0, task := none } ∧
      handleRepoCalls c repo =
        [ApiCall.listBuilds namespace_, ApiCall.listBuildRuns namespace_]) ∧
    (∀ build e, findBuild c namespace_ repo = .ok (some build) →
      c.listServices build.Namespace = .error e →
      handleRepo c repo = some { status := 500, wgAdd := 0, task := none } ∧
      handleRepoCalls c repo =
        [ApiCall.listBuilds namespace_, ApiCall.listServices build.Namespace]) ∧
    (∀ buildRun e, findBuild c namespace_ repo = .ok none →
      findBuildRun c namespace_ repo = .ok (some buildRun) →
      c.listServices buildRun.Namespace = .error e →
      handleRepo c repo = some { status := 500, wgAdd := 0, task := none } ∧
      handleRepoCalls c repo =
        [ApiCall.listBuilds namespace_, ApiCall.listBuildRuns namespace_,
          ApiCall.listServices buildRun.Namespace]) := by
  refine ⟨?_, ?_, ?_, ?_⟩
  · intro e he
    have hf : findBuild c namespace_ repo = .error e := by
      simp only [findBuild, he]
    exact ⟨by simp only [handleRepo, hsetup, hf]; rfl,
      by simp only [handleRepoCalls, hsetup, hf]⟩
  · intro e hf he
    have hr : findBuildRun c namespace_ repo = .error e := by
      simp only [findBuildRun, he]
    exact ⟨by simp only [handleRepo, hsetup, hf, hr]; rfl,
      by simp only [handleRepoCalls, hsetup, hf, hr]⟩
  · intro build e hf he
    have hs := findService_error c build.Namespace build.Spec.Output.Image e he
    exact ⟨by simp only [handleRepo, hsetup, hf, handleBuild, hs]; rfl,
      by simp only [handleRepoCalls, hsetup, hf, handleBuildCalls]⟩
  · intro buildRun e hf hr he
    have hE : ∃ E, c.listBuildRuns namespace_ = .ok E := by
      cases hl : c.listBuildRuns namespace_ with
      | error e1 => simp [findBuildRun, hl] at hr
      | ok E => exact ⟨E, rfl⟩
    obtain ⟨E, hE⟩ := hE
    have hloop : findBuildRunLoop repo E none = some buildRun := by
      simp only [findBuildRun, hE, Except.ok.injEq] at hr
      exact hr
    obtain ⟨spec, hspec⟩ := findBuildRunLoop_embedded repo E buildRun hloop
    have hs := findService_error c buildRun.Namespace spec.Output.Image e he
    exact ⟨by simp only [handleRepo, hsetup, hf, hr, handleBuildRun, hspec, hs]; rfl,
      by simp only [handleRepoCalls, hsetup, hf, hr, handleBuildRunCalls, hspec]⟩

/-- Witness of C18: the listing of definitions fails. -/
theorem listing_failure_internal_error_witness :
    handleRepo brokenCluster "https://example.com/org/app" =
      some { status := 500, wgAdd := 0, task := none } ∧
    handleRepoCalls brokenCluster "https://example.com/org/app" = [ApiCall.listBuilds "ns"] :=
  (listing_failure_internal_error brokenCluster "https://example.com/org/app" "ns" rfl).1
    (Error.api "unavailable") rfl

/-! ## Theorems: no nil dereference -/

/-- C20: an execution returned by `findBuildRun` embeds a definition spec, so
`handleBuildRun` on it reads the output image without a panic, and `handleRepo`
returns a response for every request. -/
theorem handleRepo_no_nil_dereference (c : Cluster) (repo : String) :
    (∀ namespace_ r, findBuildRun c namespace_ repo = .ok (some r) →
      (∃ spec, r.Spec.Build.Spec = some spec) ∧ ∃ resp, handleBuildRun c r = some resp) ∧
    ∃ resp, handleRepo c repo = some resp := by
  have hrun : ∀ namespace_ r, findBuildRun c namespace_ repo = .ok (some r) →
      (∃ spec, r.Spec.Build.Spec = some spec) ∧ ∃ resp, handleBuildRun c r = some resp := by
    intro namespace_ r hr
    cases hl : c.listBuildRuns namespace_ with
    | error e => simp [findBuildRun, hl] at hr
    | ok E =>
      simp only [findBuildRun, hl, Except.ok.injEq] at hr
      obtain ⟨spec, hspec⟩ := findBuildRunLoop_embedded repo E r hr
      refine ⟨⟨spec, hspec⟩, ?_⟩
      unfold handleBuildRun
      simp only [hspec]
      cases findService c r.Namespace spec.Output.Image with
      | error e => exact ⟨_, rfl⟩
      | ok res =>
        cases res with
        | none => exact ⟨_, rfl⟩
        | some svc => exact ⟨_, rfl⟩
  refine ⟨hrun, ?_⟩
  cases hs : c.inClusterSetup with
  | error e =>
    simp only [handleRepo, hs]
    exact ⟨_, rfl⟩
  | ok namespace_ =>
    cases hf : findBuild c namespace_ repo with
    | error e =>
      simp only [handleRepo, hs, hf]
      exact ⟨_, rfl⟩
    | ok b =>
      cases b with
      | some build =>
        simp only [handleRepo, hs, hf]
        exact ⟨_, rfl⟩
      | none =>
        cases hr : findBuildRun c namespace_ repo with
        | error e =>
          simp only [handleRepo, hs, hf, hr]
          exact ⟨_, rfl⟩
        | ok r =>
          cases r with
          | none =>
            simp only [handleRepo, hs, hf, hr]
            exact ⟨_, rfl⟩
          | some buildRun =>
            simp only [handleRepo, hs, hf, hr]
            exact (hrun namespace_ buildRun hr).2

/-- Witness of C20: a completed execution that names its definition is listed
before one that embeds its spec; the second one is returned and handled. -/
theorem handleRepo_no_nil_dereference_witness :
    (∃ spec, (gitRun "embedded" "https://example.com/org/app" "registry/app:v2"
        (some 1)).Spec.Build.Spec = some spec) ∧
    ∃ resp, handleBuildRun
      (clusterOfRuns [namedRun,
        gitRun "embedded" "https://example.com/org/app" "registry/app:v2" (some 1)])
      (gitRun "embedded" "https://example.com/org/app" "registry/app:v2" (some 1)) =
        some resp :=
  (handleRepo_no_nil_dereference
    (clusterOfRuns [namedRun,
      gitRun "embedded" "https://example.com/org/app" "registry/app:v2" (some 1)])
    "https://example.com/org/app").1 "ns"
    (gitRun "embedded" "https://example.com/org/app" "registry/app:v2" (some 1)) rfl

/-! ## Theorems: the wait group -/

theorem handleBuild_wgAdd (c : Cluster) (build : Build) :
    ((handleBuild c build).wgAdd = 1 ↔ (handleBuild c build).status = 202) ∧
    ((handleBuild c build).wgAdd = 0 ↔ (handleBuild c build).status ≠ 202) ∧
    ((handleBuild c build).task.isSome = true ↔ (handleBuild c build).status = 202) ∧
    ((handleBuild c build).wgAdd : Int) = (handleBuild c build).task.toList.length := by
  unfold handleBuild
  cases findService c build.Namespace build.Spec.Output.Image with
  | error e => simp [StatusInternalServerError]
  | ok res =>
    cases res with
    | none => simp [StatusNotFound]
    | some svc => simp [StatusAccepted]

theorem handleBuildRun_wgAdd (c : Cluster) (buildRun : BuildRun) (resp : Response)
    (h : handleBuildRun c buildRun = some resp) :
    (resp.wgAdd = 1 ↔ resp.status = 202) ∧ (resp.wgAdd = 0 ↔ resp.status ≠ 202) ∧
    (resp.task.isSome = true ↔ resp.status = 202) ∧
    (resp.wgAdd : Int) = resp.task.toList.length := by
  unfold handleBuildRun at h
  cases hspec : buildRun.Spec.Build.Spec with
  | none => simp [hspec] at h
  | some spec =>
    simp only [hspec] at h
    cases hf : findService c buildRun.Namespace spec.Output.Image with
    | error e =>
      simp only [hf, Option.some.injEq] at h
      subst h
      simp [StatusInternalServerError]
    | ok res =>
      cases res with
      | none =>
        simp only [hf, Option.some.injEq] at h
        subst h
        simp [StatusNotFound]
      | some svc =>
        simp only [hf, Option.some.injEq] at h
        subst h
        simp [StatusAccepted]

theorem runTask_wgDone (c : Cluster) (task : Task) : (runTask c task).wgDone = 1 := by
  cases task with
  | ofBuild build service => exact (createWaitNudge_updated c _ _ service).2.1
  | ofBuildRun buildRun service => exact (createWaitNudge_updated c _ _ service).2.1

theorem handleRepo_wgAdd (c : Cluster) (repo : String) (resp : Response)
    (h : handleRepo c repo = some resp) :
    (resp.wgAdd : Int) = resp.task.toList.length := by
  unfold handleRepo at h
  cases hs : c.inClusterSetup with
  | error e =>
    simp only [hs, Option.some.injEq] at h
    subst h
    rfl
  | ok namespace_ =>
    simp only [hs] at h
    cases hf : findBuild c namespace_ repo with
    | error e =>
      simp only [hf, Option.some.injEq] at h
      subst h
      rfl
    | ok b =>
      cases b with
      | some build =>
        simp only [hf, Option.some.injEq] at h
        subst h
        exact (handleBuild_wgAdd c build).2.2.2
      | none =>
        simp only [hf] at h
        cases hr : findBuildRun c namespace_ repo with
        | error e =>
          simp only [hr, Option.some.injEq] at h
          subst h
          rfl
        | ok r =>
          cases r with
          | none =>
            simp only [hr, Option.some.injEq] at h
            subst h
            rfl
          | some buildRun =>
            simp only [hr] at h
            exact (handleBuildRun_wgAdd c buildRun resp h).2.2.2

theorem step_counter (p : Process) (ev : Event)
    (h : p.counter = p.running.length) :
    (p.step ev).counter = (p.step ev).running.length := by
  cases ev with
  | request c repo =>
    cases hr : handleRepo c repo with
    | none =>
      simp only [Process.step, hr]
      exact h
    | some resp =>
      simp only [Process.step, hr, List.length_append, Nat.cast_add, h,
        handleRepo_wgAdd c repo resp hr]
  | finish c i =>
    cases hi : p.running[i]? with
    | none =>
      simp only [Process.step, hi]
      exact h
    | some task =>
      have hlt : i < p.running.length := by
        by_contra hge
        rw [List.getElem?_eq_none (by omega)] at hi
        cases hi
      simp only [Process.step, hi, runTask_wgDone, List.length_eraseIdx, hlt, if_true, h]
      omega

theorem foldl_step_counter (events : List Event) :
    ∀ p : Process, p.counter = p.running.length →
      (events.foldl Process.step p).counter =
        (events.foldl Process.step p).running.length := by
  induction events with
  | nil =>
    intro p h
    exact h
  | cons ev events ih =>
    intro p h
    exact ih (p.step ev) (step_counter p ev h)

theorem handleRepo_tracks (c : Cluster) (repo : String) (resp : Response)
    (h : handleRepo c repo = some resp) :
    (resp.status = 202 → resp.wgAdd = 1 ∧ ∃ task, resp.task = some task) ∧
    (resp.status ≠ 202 → resp.wgAdd = 0 ∧ resp.task = none) := by
  have direct : ∀ r : Response, (r.wgAdd = 1 ↔ r.status = 202) →
      (r.wgAdd = 0 ↔ r.status ≠ 202) → (r.task.isSome = true ↔ r.status = 202) →
      (r.status = 202 → r.wgAdd = 1 ∧ ∃ task, r.task = some task) ∧
      (r.status ≠ 202 → r.wgAdd = 0 ∧ r.task = none) := by
    intro r h1 h2 h3
    constructor
    · intro hs
      exact ⟨h1.mpr hs, Option.isSome_iff_exists.mp (h3.mpr hs)⟩
    · intro hs
      refine ⟨h2.mpr hs, ?_⟩
      cases ht : r.task with
      | none => rfl
      | some t =>
        have := h3.mp (by rw [ht]; rfl)
        exact absurd this hs
  unfold handleRepo at h
  cases hs : c.inClusterSetup with
  | error e =>
    simp only [hs, Option.some.injEq] at h
    subst h
    exact direct _ (by decide) (by decide) (by decide)
  | ok namespace_ =>
    simp only [hs] at h
    cases hf : findBuild c namespace_ repo with
    | error e =>
      simp only [hf, Option.some.injEq] at h
      subst h
      exact direct _ (by decide) (by decide) (by decide)
    | ok b =>
      cases b with
      | some build =>
        simp only [hf, Option.some.injEq] at h
        subst h
        obtain ⟨h1, h2, h3, _⟩ := handleBuild_wgAdd c build
        exact direct _ h1 h2 h3
      | none =>
        simp only [hf] at h
        cases hr : findBuildRun c namespace_ repo with
        | error e =>
          simp only [hr, Option.some.injEq] at h
          subst h
          exact direct _ (by decide) (by decide) (by decide)
        | ok r =>
          cases r with
          | none =>
            simp only [hr, Option.some.injEq] at h
            subst h
            exact direct _ (by decide) (by decide) (by decide)
          | some buildRun =>
            simp only [hr] at h
            obtain ⟨h1, h2, h3, _⟩ := handleBuildRun_wgAdd c buildRun resp h
            exact direct _ h1 h2 h3

/-- C19: `handleBuild` and `handleBuildRun` add one to the wait group, and
start their goroutine, if and only if they return 202, and add nothing
otherwise; every goroutine takes one from the wait group, whichever way it
ends.  On the process: a request answered with 202 raises the counter by one
and adds its goroutine to the running ones, a request answered otherwise
leaves the process as it is, and a running goroutine that returns lowers the
counter by one and leaves the running ones; so after any sequence of requests
and of goroutines running to their end, the counter is the number of
goroutines started and not yet returned, and it is zero exactly when there is
none. -/
theorem waitGroup_tracks_accepted :
    (∀ c build, ((handleBuild c build).wgAdd = 1 ↔ (handleBuild c build).status = 202) ∧
      ((handleBuild c build).wgAdd = 0 ↔ (handleBuild c build).status ≠ 202) ∧
      ((handleBuild c build).task.isSome = true ↔ (handleBuild c build).status = 202)) ∧
    (∀ c buildRun resp, handleBuildRun c buildRun = some resp →
      (resp.wgAdd = 1 ↔ resp.status = 202) ∧ (resp.wgAdd = 0 ↔ resp.status ≠ 202) ∧
      (resp.task.isSome = true ↔ resp.status = 202)) ∧
    (∀ c task, (runTask c task).wgDone = 1) ∧
    (∀ (p : Process) c repo resp, handleRepo c repo = some resp →
      (resp.status = 202 → ∃ task, resp.task = some task ∧
        (p.step (Event.request c repo)).counter = p.counter + 1 ∧
        (p.step (Event.request c repo)).running = p.running ++ [task]) ∧
      (resp.status ≠ 202 →
        (p.step (Event.request c repo)).counter = p.counter ∧
        (p.step (Event.request c repo)).running = p.running)) ∧
    (∀ (p : Process) c i task, p.running[i]? = some task →
      (p.step (Event.finish c i)).counter = p.counter - 1 ∧
      (p.step (Event.finish c i)).running = p.running.eraseIdx i) ∧
    (∀ events, (Process.after events).counter = (Process.after events).running.length ∧
      ((Process.after events).counter = 0 ↔ (Process.after events).running = [])) := by
  refine ⟨?_, ?_, runTask_wgDone, ?_, ?_, ?_⟩
  · intro c build
    obtain ⟨h1, h2, h3, _⟩ := handleBuild_wgAdd c build
    exact ⟨h1, h2, h3⟩
  · intro c buildRun resp h
    obtain ⟨h1, h2, h3, _⟩ := handleBuildRun_wgAdd c buildRun resp h
    exact ⟨h1, h2, h3⟩
  · intro p c repo resp h
    obtain ⟨hacc, hrej⟩ := handleRepo_tracks c repo resp h
    constructor
    · intro hs
      obtain ⟨hadd, task, ht⟩ := hacc hs
      refine ⟨task, ht, ?_, ?_⟩
      · simp only [Process.step, h, hadd, Nat.cast_one]
      · simp only [Process.step, h, ht, Option.toList_some]
    · intro hs
      obtain ⟨hadd, ht⟩ := hrej hs
      constructor
      · simp only [Process.step, h, hadd, Nat.cast_zero, add_zero]
      · simp only [Process.step, h, ht, Option.toList_none, List.append_nil]
  · intro p c i task hi
    constructor
    · simp only [Process.step, hi, runTask_wgDone, Nat.cast_one]
    · simp only [Process.step, hi]
  · intro events
    have h := foldl_step_counter events Process.start rfl
    refine ⟨h, ?_⟩
    unfold Process.after
    rw [h]
    constructor
    · intro h0
      exact List.length_eq_zero.mp (by exact_mod_cast h0)
    · intro h0
      rw [h0]
      rfl

/-- Witness of C19: the request of scenario 1, answered with 202, takes the
counter from 0 to 1 and starts the goroutine of the definition. -/
theorem waitGroup_tracks_accepted_witness :
    ∃ task, (handleBuild (clusterOf [gitBuild "app" "https://example.com/org/app" "registry/app:latest"]
          [] [taggedService "registry/app:latest"])
        (gitBuild "app" "https://example.com/org/app" "registry/app:latest")).task = some task ∧
      (Process.start.step (Event.request
        (clusterOf [gitBuild "app" "https://example.com/org/app" "registry/app:latest"]
          [] [taggedService "registry/app:latest"]) "https://example.com/org/app")).counter =
        Process.start.counter + 1 ∧
      (Process.start.step (Event.request
        (clusterOf [gitBuild "app" "https://example.com/org/app" "registry/app:latest"]
          [] [taggedService "registry/app:latest"]) "https://example.com/org/app")).running =
        Process.start.running ++ [task] :=
  (waitGroup_tracks_accepted.2.2.2.1 Process.start
    (clusterOf [gitBuild "app" "https://example.com/org/app" "registry/app:latest"]
      [] [taggedService "registry/app:latest"]) "https://example.com/org/app"
    (handleBuild (clusterOf [gitBuild "app" "https://example.com/org/app" "registry/app:latest"]
        [] [taggedService "registry/app:latest"])
      (gitBuild "app" "https://example.com/org/app" "registry/app:latest")) rfl).1 (by decide)

end Rebuild
